import Mathlib

set_option autoImplicit false

/-!
# Verification of the js-helpers library

A shallow embedding of the `js-helpers` repository (HTML element builders,
object merge helpers) together with proofs about the behaviour its
specification describes.  The repository ships two generations of the code:

* a class-based generation (`src/src/Html.js`, `src/ObjectHelper.js`),
  embedded below in the namespaces `Html` and `ObjectHelperOld`;
* a function-based generation (the module concatenated into
  `src/src/index.js`, `src/src/ObjectHelper.js`), embedded in the
  namespaces `IndexJs` and `ObjectHelper`.

JavaScript values reaching these functions are modelled by `JSValue`
(null, booleans, integer numbers, strings, arrays, plain objects); DOM
nodes by `Node`.  In-place mutation of caller-supplied objects is
modelled by returning the mutated value, and thrown host errors by
`Except String`.
-/

/-- A JavaScript runtime value, restricted to the shapes that flow through
the modelled call paths of this library: `null`, booleans, (integer)
numbers, strings, arrays, and plain objects as ordered key/value field
lists.  `undefined` and function values do not occur in these paths. -/
inductive JSValue where
  | nullv : JSValue
  | bool (b : Bool) : JSValue
  | num (n : Int) : JSValue
  | str (s : String) : JSValue
  | arr (xs : List JSValue) : JSValue
  | obj (fields : List (String × JSValue)) : JSValue
  deriving Repr

/-- JavaScript truthiness (`Boolean(v)`) of a modelled value. -/
def JSValue.truthy : JSValue → Bool
  | .nullv => false
  | .bool b => b
  | .num n => n != 0
  | .str s => s != ""
  | .arr _ => true
  | .obj _ => true

/-- The JavaScript `typeof` operator on modelled values; note that
`typeof null` is the string `object`. -/
def JSValue.typeof : JSValue → String
  | .nullv => "object"
  | .bool _ => "boolean"
  | .num _ => "number"
  | .str _ => "string"
  | .arr _ => "object"
  | .obj _ => "object"

/-- `Array.isArray` on modelled values. -/
def JSValue.isArray : JSValue → Bool
  | .arr _ => true
  | _ => false

/-- `v === null` on modelled values. -/
def JSValue.isNull : JSValue → Bool
  | .nullv => true
  | _ => false

/-- Property read `fields[key]` on a JS object (or a reflected DOM map),
as a lookup of the first matching key in the ordered entry list (`none`
models `undefined`). -/
def getKey {A : Type} : List (String × A) → String → Option A
  | [], _ => none
  | (k, v) :: rest, key => if k = key then some v else getKey rest key

/-- Property write `fields[key] = v`: an existing key keeps its position
and receives the new value, a fresh key is appended at the end
(JavaScript property insertion order). -/
def setKey {A : Type} : List (String × A) → String → A → List (String × A)
  | [], key, v => [(key, v)]
  | (k, w) :: rest, key, v =>
      if k = key then (k, v) :: rest else (k, w) :: setKey rest key v

/-- Property deletion `delete fields[key]`.  JS objects never hold a key
twice, so removing every occurrence from the entry list is faithful. -/
def delKey {A : Type} : List (String × A) → String → List (String × A)
  | [], _ => []
  | (k, w) :: rest, key =>
      if k = key then delKey rest key else (k, w) :: delKey rest key

/-! ## `ObjectHelper` — current generation (`src/src/ObjectHelper.js`) -/

namespace ObjectHelper

/-- `ObjectHelper.isObject` from `src/src/ObjectHelper.js`:
`item !== null && typeof item === 'object' && !Array.isArray(item) &&
typeof item !== 'function'` (the final conjunct is vacuous here because
function values do not occur in the modelled paths). -/
def isObject (item : JSValue) : Bool :=
  !item.isNull && (item.typeof == "object") && !item.isArray

/-- The target field an object-valued source field is merged into:
`if (!target[key] || !this.isObject(target[key])) target[key] = {}` keeps
an existing object field and resets anything else (absent, falsy, or
non-object — objects are always truthy) to the fresh empty object. -/
def mergeBase : Option JSValue → List (String × JSValue)
  | some (JSValue.obj tf) => tf
  | _ => []

/-- The `Object.keys(source).forEach` body of `ObjectHelper.merge` from
`src/src/ObjectHelper.js`, acting on the field lists of target and source:
an object-valued source field is merged recursively into the target field
(reset to `{}` when the target field is absent, falsy, or not an object),
any other source field overwrites the target field. -/
def mergeFields : List (String × JSValue) → List (String × JSValue) → List (String × JSValue)
  | target, [] => target
  | target, (key, JSValue.obj sf) :: rest =>
      mergeFields (setKey target key
        (JSValue.obj (mergeFields (mergeBase (getKey target key)) sf))) rest
  | target, (key, v) :: rest => mergeFields (setKey target key v) rest
  termination_by _ source => sizeOf source
  decreasing_by
    all_goals simp_wf
    all_goals omega

/-- One step of the `sources.forEach` loop of `merge`: a source that is not
an object (`isObject(source)` false) is skipped silently. -/
def mergeSource (target : List (String × JSValue)) (source : JSValue) : List (String × JSValue) :=
  match source with
  | JSValue.obj sf => mergeFields target sf
  | _ => target

/-- `ObjectHelper.merge(target, ...sources)` from `src/src/ObjectHelper.js`.
The in-place mutation of `target` is modelled by returning the merged
value; the `throw new Error('Target must be an object')` on a non-object
target is modelled with `Except.error`.  `isObject target` holds exactly
for the `JSValue.obj` constructor (`isObject_iff`). -/
def merge : JSValue → List JSValue → Except String JSValue
  | JSValue.obj tf, sources =>
      Except.ok (JSValue.obj (sources.foldl mergeSource tf))
  | _, _ => Except.error "Target must be an object"

end ObjectHelper

/-! ## `ObjectHelper` — legacy generation (`src/ObjectHelper.js`) -/

namespace ObjectHelperOld

/-- `ObjectHelper.isObject` from the legacy `src/ObjectHelper.js`:
`(item && typeof item === 'object' && !Array.isArray(item))` —
truthiness instead of a null check, same outcome on modelled values. -/
def isObject (item : JSValue) : Bool :=
  item.truthy && (item.typeof == "object") && !item.isArray

/-- The `for (const key in source)` body of the legacy
`ObjectHelper.merge` from `src/ObjectHelper.js`.  For an object-valued
source field the code resets a *falsy* target field to `{}` and then
recursively calls `this.merge(target[key], source[key])`, whose target
check throws when `target[key]` is a truthy non-object (number, string,
or array).  Non-object source fields overwrite. -/
def mergeFields : List (String × JSValue) → List (String × JSValue) → Except String (List (String × JSValue))
  | target, [] => Except.ok target
  | target, (key, JSValue.obj sf) :: rest =>
      let target1 : List (String × JSValue) :=
        match getKey target key with
        | some v => if v.truthy then target else setKey target key (JSValue.obj [])
        | none => setKey target key (JSValue.obj [])
      (match getKey target1 key with
        | some (JSValue.obj tf) =>
            (mergeFields tf sf).bind fun merged =>
              mergeFields (setKey target1 key (JSValue.obj merged)) rest
        | _ => Except.error "Target is not an object")
  | target, (key, v) :: rest => mergeFields (setKey target key v) rest
  termination_by _ source => sizeOf source
  decreasing_by
    all_goals simp_wf
    all_goals omega

/-- The legacy `ObjectHelper.merge(target, ...sources)` from
`src/ObjectHelper.js`: throws on a non-object target, silently skips
non-object sources, and recurses over the remaining sources. -/
def merge : JSValue → List JSValue → Except String JSValue
  | JSValue.obj tf, [] => Except.ok (JSValue.obj tf)
  | JSValue.obj tf, source :: rest =>
      (match source with
        | JSValue.obj sf => mergeFields tf sf
        | _ => Except.ok tf).bind fun tf1 =>
        merge (JSValue.obj tf1) rest
  | _, _ => Except.error "Target is not an object"

end ObjectHelperOld

/-! ## JavaScript string conversions and host primitives -/

/-- A JavaScript plain object as its ordered field list. -/
abbrev JSObj := List (String × JSValue)

mutual

/-- String conversion `String(v)` of a modelled value (also the behaviour
of `v.toString()` at the call sites below, which never receive `null`):
`null` prints as `null`, booleans and integers in the usual way, an array
joins its elements with commas (`null` elements become the empty string),
and a plain object prints as `[object Object]`. -/
def JSValue.toStr : JSValue → String
  | JSValue.nullv => "null"
  | JSValue.bool b => cond b "true" "false"
  | JSValue.num n => toString n
  | JSValue.str s => s
  | JSValue.arr xs => JSValue.joinElems "," xs
  | JSValue.obj _ => "[object Object]"

/-- The host `Array.prototype.join(sep)`: elements converted by
`String(x)` except `null`, which contributes the empty string. -/
def JSValue.joinElems : String → List JSValue → String
  | _, [] => ""
  | _, [JSValue.nullv] => ""
  | _, [v] => JSValue.toStr v
  | sep, JSValue.nullv :: rest => sep ++ JSValue.joinElems sep rest
  | sep, v :: rest => JSValue.toStr v ++ sep ++ JSValue.joinElems sep rest

end

/-- Enumeration behind `Object.entries(v)` and `for...in` on modelled
values: the own fields of a plain object, the indexed elements of an
array (keys are decimal index strings); primitives enumerate nothing.
String enumeration (indexed characters) does not occur at the modelled
call sites. -/
def JSValue.entries : JSValue → List (String × JSValue)
  | JSValue.obj fs => fs
  | JSValue.arr xs => (List.range xs.length).zip xs |>.map fun p => (toString p.fst, p.snd)
  | _ => []

/-- Field list of a value expected to be a plain object; non-objects give
the empty list (matching the `typeof attributes !== 'object'` early
return of the class `setAttributes`, the only consumer of non-object
candidates here). -/
def JSValue.objFields : JSValue → JSObj
  | JSValue.obj fs => fs
  | _ => []

/-- JavaScript strict equality (`===`) on modelled values.  Two distinct
container literals are distinct references and compare unequal; the
modelled call sites never compare aliased containers, so containers are
unequal here. -/
def jsStrictEq : JSValue → JSValue → Bool
  | JSValue.nullv, JSValue.nullv => true
  | JSValue.bool a, JSValue.bool b => a == b
  | JSValue.num a, JSValue.num b => a == b
  | JSValue.str a, JSValue.str b => a == b
  | _, _ => false

/-- Character-list view of a string (host string primitives are modelled
over character lists so that they compute by reduction). -/
def strChars (s : String) : List Char := s.data

/-- Modelled `String.prototype.startsWith`. -/
def strStartsWith (s pre : String) : Bool := pre.data.isPrefixOf s.data

/-- Modelled `String.prototype.endsWith`. -/
def strEndsWith (s suf : String) : Bool := suf.data.reverse.isPrefixOf s.data.reverse

/-- Infix test on character lists. -/
def listIsInfix (sub : List Char) : List Char → Bool
  | [] => sub.isEmpty
  | c :: rest => sub.isPrefixOf (c :: rest) || listIsInfix sub rest

/-- Modelled `String.prototype.includes` for a substring. -/
def strIncludes (s sub : String) : Bool := listIsInfix sub.data s.data

/-- Modelled `indexOf(c) !== -1`. -/
def strContainsChar (s : String) (c : Char) : Bool := s.data.contains c

/-- Modelled `String.prototype.toLowerCase` (ASCII). -/
def strToLower (s : String) : String :=
  String.mk (s.data.map fun c =>
    if 'A' ≤ c ∧ c ≤ 'Z' then Char.ofNat (c.toNat + 32) else c)

/-- Modelled `substring(0, length - n)` (drop the final `n` characters). -/
def strDropRight (s : String) (n : Nat) : String :=
  String.mk (s.data.take (s.data.length - n))

/-- Splitting a character list at every occurrence of one character
(models `split` on a one-character separator). -/
def splitOnChar (c : Char) : List Char → List (List Char)
  | [] => [[]]
  | x :: rest =>
      let tail := splitOnChar c rest
      if x = c then [] :: tail
      else
        match tail with
        | [] => [[x]]
        | seg :: segs => (x :: seg) :: segs

/-- Modelled host test `if (Number(name))` from the class `setAttributes`:
truthy exactly when the string parses as a decimal (optionally signed or
fractional) number with non-zero value.  A blank string parses as `0`
(falsy) and a non-numeric string as `NaN` (also falsy); exotic numeric
forms (hex, exponent, `Infinity`) do not occur as attribute names in
this development and are treated as non-numeric. -/
def jsNumericTruthy (s : String) : Bool :=
  let t := (s.data.dropWhile Char.isWhitespace).reverse.dropWhile Char.isWhitespace |>.reverse
  let core := match t with
    | '-' :: rest => rest
    | '+' :: rest => rest
    | _ => t
  match splitOnChar '.' core with
  | [intPart] =>
      !intPart.isEmpty && intPart.all Char.isDigit &&
        (intPart.any fun c => c != '0')
  | [intPart, fracPart] =>
      !(intPart ++ fracPart).isEmpty && (intPart ++ fracPart).all Char.isDigit &&
        ((intPart ++ fracPart).any fun c => c != '0')
  | _ => false

/-- Truthiness of `options.key` (an absent key reads as `undefined`,
which is falsy). -/
def optTruthy (options : JSObj) (key : String) : Bool :=
  match getKey options key with
  | some v => v.truthy
  | none => false

/-- Numeric value of a hexadecimal digit. -/
def hexVal (c : Char) : Option Nat :=
  if '0' ≤ c ∧ c ≤ '9' then some (c.toNat - '0'.toNat)
  else if 'a' ≤ c ∧ c ≤ 'f' then some (10 + c.toNat - 'a'.toNat)
  else if 'A' ≤ c ∧ c ≤ 'F' then some (10 + c.toNat - 'A'.toNat)
  else none

/-- Percent-decoding as performed by `URLSearchParams` parsing
(`application/x-www-form-urlencoded`): `+` becomes a space, `%XX` with
two hex digits becomes the byte `XX`, and a malformed percent sequence
is kept literally.  Decoded bytes are modelled as characters; the
theorems below only exercise ASCII. -/
def formUrlDecode : List Char → List Char
  | [] => []
  | '+' :: rest => ' ' :: formUrlDecode rest
  | '%' :: c1 :: c2 :: rest =>
      match hexVal c1, hexVal c2 with
      | some h1, some h2 => Char.ofNat (16 * h1 + h2) :: formUrlDecode rest
      | _, _ => '%' :: formUrlDecode (c1 :: c2 :: rest)
  | c :: rest => c :: formUrlDecode rest

/-- The host `decodeURIComponent`: `%XX` sequences are percent-decoded,
`+` is not special, and a malformed percent sequence throws `URIError`
(modelled as `none`).  Decoded bytes are modelled as characters; the
multi-byte UTF-8 validation the host performs is not modelled, as the
development only exercises ASCII. -/
def jsDecodeURIComponent : List Char → Option (List Char)
  | [] => some []
  | '%' :: c1 :: c2 :: rest =>
      match hexVal c1, hexVal c2 with
      | some h1, some h2 =>
          (jsDecodeURIComponent rest).map fun ds => Char.ofNat (16 * h1 + h2) :: ds
      | _, _ => none
  | '%' :: _ => none
  | c :: rest => (jsDecodeURIComponent rest).map fun ds => c :: ds

/-- The pair list produced by `new URLSearchParams(query)`: an optional
leading `?` is stripped, the rest splits on `&`, empty segments are
dropped, each segment splits at its first `=` (a segment without `=` is
a key with empty value), and both sides are form-url-decoded. -/
def urlSearchParams (query : String) : List (String × String) :=
  let q := match query.data with
    | '?' :: rest => rest
    | cs => cs
  (splitOnChar '&' q).filterMap fun seg =>
    if seg.isEmpty then none
    else
      let key := seg.takeWhile fun c => c != '='
      let value := (seg.dropWhile fun c => c != '=').drop 1
      some ((formUrlDecode key).asString, (formUrlDecode value).asString)

/-! ## The DOM model -/

/-- A host document node: an element (with content attributes, IDL
boolean properties, `dataset` entries, inline style entries, and child
nodes), a text node, or a document fragment.  Setting an IDL boolean
property such as `required` is recorded in `props`, separately from the
content attributes set through `setAttribute`. -/
inductive Node where
  | element (tag : String) (attrs : List (String × String))
      (props : List (String × Bool)) (dataset : List (String × String))
      (style : List (String × String)) (children : List Node) : Node
  | text (s : String) : Node
  | fragment (children : List Node) : Node

/-- Tag of an element (text nodes read as `#text`, fragments as
`#document-fragment`). -/
def Node.tagOf : Node → String
  | Node.element t _ _ _ _ _ => t
  | Node.text _ => "#text"
  | Node.fragment _ => "#document-fragment"

/-- Content attribute read (`getAttribute`). -/
def Node.getAttr : Node → String → Option String
  | Node.element _ a _ _ _ _, name => getKey a name
  | _, _ => none

/-- Content attribute write (`setAttribute`); no-op on non-elements. -/
def Node.setAttr : Node → String → String → Node
  | Node.element t a p d st c, name, v => Node.element t (setKey a name v) p d st c
  | n, _, _ => n

/-- IDL boolean property read (`element[name]`). -/
def Node.getProp : Node → String → Option Bool
  | Node.element _ _ p _ _ _, name => getKey p name
  | _, _ => none

/-- IDL boolean property write (`element[name] = b`). -/
def Node.setProp : Node → String → Bool → Node
  | Node.element t a p d st c, name, b => Node.element t a (setKey p name b) d st c
  | n, _, _ => n

/-- Child list of a node. -/
def Node.childNodes : Node → List Node
  | Node.element _ _ _ _ _ c => c
  | Node.fragment c => c
  | Node.text _ => []

/-- Raw child append (no fragment splicing). -/
def Node.appendRaw : Node → List Node → Node
  | Node.element t a p d st c, xs => Node.element t a p d st (c ++ xs)
  | Node.fragment c, xs => Node.fragment (c ++ xs)
  | n, _ => n

/-- The DOM `appendChild`: appending a document fragment moves the
fragment children into the parent; any other node is appended itself. -/
def Node.appendChild (parent : Node) : Node → Node
  | Node.fragment xs => parent.appendRaw xs
  | c => parent.appendRaw [c]

/-- Repeated `appendChild` over a list of children (a `for...of` loop). -/
def Node.appendChildren (parent : Node) (cs : List Node) : Node :=
  cs.foldl Node.appendChild parent

/-- Replacement of the whole child list (the `innerHTML` and
`textContent` setters). -/
def Node.withChildren : Node → List Node → Node
  | Node.element t a p d st _, xs => Node.element t a p d st xs
  | Node.fragment _, xs => Node.fragment xs
  | n, _ => n

/-- Bulk `dataset` assignment (`element.dataset[k] = v` per entry). -/
def Node.assignDataset : Node → List (String × String) → Node
  | Node.element t a p d st c, entries =>
      Node.element t a p (entries.foldl (fun acc kv => setKey acc kv.fst kv.snd) d) st c
  | n, _ => n

/-- Bulk inline-style assignment (`Object.assign(element.style, v)`). -/
def Node.assignStyle : Node → List (String × String) → Node
  | Node.element t a p d st c, entries =>
      Node.element t a p d (entries.foldl (fun acc kv => setKey acc kv.fst kv.snd) st) c
  | n, _ => n

/-- Element test. -/
def Node.isElement : Node → Bool
  | Node.element _ _ _ _ _ _ => true
  | _ => false

/-- Fragment test. -/
def Node.isFragment : Node → Bool
  | Node.fragment _ => true
  | _ => false

mutual

/-- The DOM `textContent` getter: concatenation of every descendant text
node, in document order. -/
def Node.textContent : Node → String
  | Node.text s => s
  | Node.element _ _ _ _ _ children => Node.textContentList children
  | Node.fragment children => Node.textContentList children

/-- Concatenated `textContent` of a node list. -/
def Node.textContentList : List Node → String
  | [] => ""
  | c :: rest => Node.textContent c ++ Node.textContentList rest

end

mutual

/-- Existence of a node satisfying `p` in the tree rooted at `n`
(including `n` itself). -/
def Node.anyNode (p : Node → Bool) : Node → Bool
  | Node.text s => p (Node.text s)
  | Node.element t a pr d st children =>
      p (Node.element t a pr d st children) || Node.anyNodeList p children
  | Node.fragment children => p (Node.fragment children) || Node.anyNodeList p children

/-- Existence of a node satisfying `p` in a forest. -/
def Node.anyNodeList (p : Node → Bool) : List Node → Bool
  | [] => false
  | c :: rest => Node.anyNode p c || Node.anyNodeList p rest

end

/-- Test for a hidden input element (`input[type=hidden]`). -/
def Node.isHiddenInput (n : Node) : Bool :=
  n.tagOf == "input" && n.getAttr "type" == some "hidden"

/-- Whether a hidden input occurs anywhere in the tree. -/
def Node.containsHiddenInput (n : Node) : Bool :=
  Node.anyNode Node.isHiddenInput n

/-- Modelled host primitive: the fragment parser behind the `innerHTML`
setter, on the small well-formed subset exercised in this development
(plain text and nested `<tag>…</tag>` elements without attributes).  The
fuel argument, instantiated with the input length, bounds the recursion;
the result pairs the parsed forest with the unconsumed input. -/
def parseNodes : Nat → List Char → (List Node × List Char)
  | 0, cs => ([], cs)
  | _ + 1, [] => ([], [])
  | fuel + 1, '<' :: cs =>
      if cs.head? = some '/' then
        ([], '<' :: cs)
      else
        let tagName := (cs.takeWhile fun c => c != '>').asString
        let afterTag := (cs.dropWhile fun c => c != '>').drop 1
        let inner := parseNodes fuel afterTag
        let afterClose := ((inner.snd.dropWhile fun c => c != '>').drop 1)
        let sibs := parseNodes fuel afterClose
        (Node.element tagName [] [] [] [] inner.fst :: sibs.fst, sibs.snd)
  | fuel + 1, c :: cs =>
      let txt := (c :: cs).takeWhile fun ch => ch != '<'
      let rest := (c :: cs).dropWhile fun ch => ch != '<'
      let sibs := parseNodes fuel rest
      (Node.text txt.asString :: sibs.fst, sibs.snd)

/-- The forest the host `innerHTML` setter produces for a markup string
(see `parseNodes`). -/
def hostParseHTML (s : String) : List Node :=
  (parseNodes (s.data.length + 1) s.data).fst

/-- The content argument of `renderContent`, by runtime shape: an array
or `NodeList` of nodes, a single node object (possibly a fragment), a
string, `null`, or `undefined`. -/
inductive Content where
  | arr (xs : List Node) : Content
  | node (n : Node) : Content
  | str (s : String) : Content
  | nullc : Content
  | undef : Content

/-! ## Shared constant enumerations

Both generations define the same two lists verbatim. -/

/-- Elements that do not allow inner HTML (`voidElements` in
`src/src/Html.js` and in the module of `src/src/index.js`). -/
def voidElements : List String :=
  ["area", "base", "br", "col", "command", "embed", "hr", "img", "input",
   "keygen", "link", "meta", "param", "source", "track", "wbr"]

/-- Boolean attributes (`booleanAttributes` in both generations). -/
def booleanAttributes : List String :=
  ["required", "readonly", "disabled", "checked"]

/-! ## Function generation (the module concatenated into `src/src/index.js`) -/

/-- One iteration of the `Object.entries(attributes).forEach` loop of
`setAttributes` from `src/src/index.js`: `null` and `false` values are
skipped, a key in the boolean attribute list sets the IDL property to
the truthiness of the value, `class` with an array value joins with
spaces, `style` with an object value is `Object.assign`-ed onto the
style, a key starting with `data` with an object value is copied into
`dataset`, and anything else becomes `setAttribute(name,
value.toString())`. -/
def IndexJs.setAttrStep (element : Node) (name : String) (value : JSValue) : Node :=
  match value with
  | JSValue.nullv => element
  | JSValue.bool false => element
  | v =>
      if booleanAttributes.contains name then
        element.setProp name v.truthy
      else if name = "class" && v.isArray then
        element.setAttr "class" (JSValue.joinElems " " (match v with
          | JSValue.arr xs => xs
          | _ => []))
      else if name = "style" && v.typeof = "object" then
        element.assignStyle (v.entries.map fun kv => (kv.fst, kv.snd.toStr))
      else if strStartsWith name "data" && v.typeof = "object" then
        element.assignDataset (v.entries.map fun kv => (kv.fst, kv.snd.toStr))
      else
        element.setAttr name v.toStr

/-- `setAttributes` from `src/src/index.js`. -/
def IndexJs.setAttributes (element : Node) (attributes : JSObj) : Node :=
  attributes.foldl (fun el kv => IndexJs.setAttrStep el kv.fst kv.snd) element

/-- `renderContent` from `src/src/index.js`: arrays and node lists are
appended child by child, a non-null object is appended (fragments
splice), a string becomes the literal text content (`textContent`
setter: all children replaced by one text node, none for the empty
string), `null` and `undefined` do nothing. -/
def IndexJs.renderContent (element : Node) : Content → Node
  | Content.arr xs => element.appendChildren xs
  | Content.node n => element.appendChild n
  | Content.str s =>
      element.withChildren (if s = "" then [] else [Node.text s])
  | Content.nullc => element
  | Content.undef => element

/-- `tag` from `src/src/index.js`: create the element, apply the
attributes, and render the content unless the tag is a void element. -/
def IndexJs.tag (name : String) (content : Content) (options : JSObj) : Node :=
  let element := IndexJs.setAttributes (Node.element name [] [] [] [] []) options
  if voidElements.contains name then element
  else IndexJs.renderContent element content

/-- The in-place mutation `options.href = url` performed by `a` from
`src/src/index.js` when `url !== null`; exposed separately because the
caller keeps the mutated object. -/
def IndexJs.aOptions (url : Option String) (options : JSObj) : JSObj :=
  match url with
  | some u => setKey options "href" (JSValue.str u)
  | none => options

/-- `a` from `src/src/index.js`. -/
def IndexJs.a (text : String) (url : Option String) (options : JSObj) : Node :=
  IndexJs.tag "a" (Content.str text) (IndexJs.aOptions url options)

/-- The in-place mutation `options.src = src` performed by `img`. -/
def IndexJs.imgOptions (src : String) (options : JSObj) : JSObj :=
  setKey options "src" (JSValue.str src)

/-- `img` from `src/src/index.js` (void element, `null` content). -/
def IndexJs.img (src : String) (options : JSObj) : Node :=
  IndexJs.tag "img" Content.nullc (IndexJs.imgOptions src options)

/-- The in-place mutations of `input` from `src/src/index.js`:
`options.type = type` unless `options.type` is already truthy, then
`options.name = name` and `options.value = value`. -/
def IndexJs.inputOptions (ty name : String) (value : JSValue) (options : JSObj) : JSObj :=
  let o1 := if optTruthy options "type" then options else setKey options "type" (JSValue.str ty)
  setKey (setKey o1 "name" (JSValue.str name)) "value" value

/-- `input` from `src/src/index.js` (void element). -/
def IndexJs.input (ty name : String) (value : JSValue) (options : JSObj) : Node :=
  IndexJs.tag "input" Content.nullc (IndexJs.inputOptions ty name value options)

/-- `hiddenInput` from `src/src/index.js`. -/
def IndexJs.hiddenInput (name : String) (value : JSValue) (options : JSObj) : Node :=
  IndexJs.input "hidden" name value options

/-- `button` from `src/src/index.js`: defaults `options.type` to
`button` when not already truthy. -/
def IndexJs.button (content : Content) (options : JSObj) : Node :=
  IndexJs.tag "button" content
    (if optTruthy options "type" then options else setKey options "type" (JSValue.str "button"))

/-- `resetButton` from `src/src/index.js`: forces `options.type` to
`reset` and returns the button. -/
def IndexJs.resetButton (content : Content) (options : JSObj) : Node :=
  IndexJs.button content (setKey options "type" (JSValue.str "reset"))

/-- `submitButton` from `src/src/index.js`: forces `options.type` to
`submit` and returns the button. -/
def IndexJs.submitButton (content : Content) (options : JSObj) : Node :=
  IndexJs.button content (setKey options "type" (JSValue.str "submit"))

/-- The pair decoding both `form` implementations perform on a GET query
string: `URLSearchParams` parsing followed by a second
`decodeURIComponent` pass over each key and value (the body of
`for (const [key, value] of queryParams)`), which throws `URIError` on a
residual malformed percent sequence. -/
def doubleDecodePairs (query : String) : Except String (List (String × String)) :=
  (urlSearchParams query).mapM fun kv =>
    match jsDecodeURIComponent kv.fst.data, jsDecodeURIComponent kv.snd.data with
    | some k, some v => Except.ok (k.asString, v.asString)
    | _, _ => Except.error "URIError: URI malformed"

/-- `form` from `src/src/index.js`.  With a GET method (case-insensitive)
and a `?` in the action, the query string is parsed by `URLSearchParams`,
every pair is passed through `decodeURIComponent` a second time (which
can throw `URIError`, modelled with `Except.error`), one hidden input per
pair is collected into a fragment, and the action is truncated at the
first `?`; the element is then built as
`tag('form', hiddenInputs, {...options, action, method})`. -/
def IndexJs.form (action method : String) (options : JSObj) : Except String Node :=
  if strToLower method = "get" && strContainsChar action '?' then
    let query := String.mk ((action.data.dropWhile fun c => c != '?').drop 1)
    let truncated := String.mk (action.data.takeWhile fun c => c != '?')
    (doubleDecodePairs query).map fun pairs =>
      IndexJs.tag "form"
        (Content.node (Node.fragment
          (pairs.map fun kv => IndexJs.hiddenInput kv.fst (JSValue.str kv.snd) [])))
        (setKey (setKey options "action" (JSValue.str truncated)) "method" (JSValue.str method))
  else
    Except.ok (IndexJs.tag "form" (Content.node (Node.fragment []))
      (setKey (setKey options "action" (JSValue.str action)) "method" (JSValue.str method)))

/-- `renderSelectOptions` from `src/src/index.js`: one `option` element
per item (key reflected as the `value` attribute, value as the display
text), marked selected when the key is strictly equal to a member of the
selection set (an array spreads, anything else is a singleton). -/
def IndexJs.renderSelectOptions (selection : JSValue) (items : JSObj) (options : JSObj) : List Node :=
  let selections : List JSValue :=
    match selection with
    | JSValue.arr xs => xs
    | v => [v]
  items.map fun kv =>
    let optionElement := Node.element "option" [] [] [] [] []
    let optionElement := optionElement.setAttr "value" kv.fst
    let shown := match kv.snd with
      | JSValue.nullv => ""
      | v => v.toStr
    let optionElement := optionElement.withChildren
      (if shown = "" then [] else [Node.text shown])
    let optionElement :=
      if selections.any (fun s => jsStrictEq s (JSValue.str kv.fst)) then
        optionElement.setProp "selected" true
      else optionElement
    match getKey options kv.fst with
    | some v => if v.truthy then IndexJs.setAttributes optionElement v.objFields else optionElement
    | none => optionElement

/-- `listBox` from `src/src/index.js`: defaults `size` to 4, appends `[]`
to the name when `options.multiple` is truthy and the name does not
already end in `[]`, and, when `options.unselect` is truthy, first
appends a hidden input that reuses the (suffixed) name with the unselect
value before the select element. -/
def IndexJs.listBox (name : String) (selection : JSValue) (items : JSObj) (options : JSObj) : Node :=
  let options := if optTruthy options "size" then options else setKey options "size" (JSValue.num 4)
  let name := if optTruthy options "multiple" && !strEndsWith name "[]" then name ++ "[]" else name
  let options := setKey options "name" (JSValue.str name)
  let pre :=
    if optTruthy options "unselect" then
      [IndexJs.hiddenInput name ((getKey options "unselect").getD JSValue.nullv) []]
    else []
  let options := if optTruthy options "unselect" then delKey options "unselect" else options
  let sel := IndexJs.tag "select"
    (Content.node (Node.fragment (IndexJs.renderSelectOptions selection items [])))
    options
  Node.fragment (pre ++ [sel])

/-- `select` from `src/src/index.js`: delegates to `listBox` when
`options.multiple` is truthy. -/
def IndexJs.select (name : String) (selection : JSValue) (items : JSObj) (options : JSObj) : Node :=
  if optTruthy options "multiple" then IndexJs.listBox name selection items options
  else
    IndexJs.tag "select"
      (Content.node (Node.fragment (IndexJs.renderSelectOptions selection items [])))
      (setKey options "name" (JSValue.str name))

/-- `booleanInput` from `src/src/index.js`.  When `options.uncheck` is
truthy the source creates `hiddenInput(name, options.uncheck, {form:
options.form})` but binds it to an unused local (`const hiddenElement`):
the hidden input never reaches the returned tree, so that branch has no
observable effect and is modelled as the no-op it is. -/
def IndexJs.booleanInput (ty name : String) (checked : Bool) (options : JSObj) : Node :=
  let value := if optTruthy options "value" then (getKey options "value").getD JSValue.nullv
    else JSValue.str "1"
  let elementOptions :=
    setKey (setKey (setKey (setKey options "type" (JSValue.str ty))
      "checked" (JSValue.bool checked)) "name" (JSValue.str name)) "value" value
  let element := IndexJs.input ty name value elementOptions
  if optTruthy options "label" then
    let labelEl := Node.element "label" [] [] [] [] []
    let labelEl := labelEl.appendChildren
      [element, Node.text ((getKey options "label").getD JSValue.nullv).toStr]
    match getKey options "labelOptions" with
    | some lv => if lv.truthy then IndexJs.setAttributes labelEl lv.objFields else labelEl
    | none => labelEl
  else element

/-- `radio` from `src/src/index.js`: a `booleanInput` wrapper. -/
def IndexJs.radio (name : String) (checked : Bool) (options : JSObj) : Node :=
  IndexJs.booleanInput "radio" name checked options

/-- `checkbox` from `src/src/index.js`: a `booleanInput` wrapper. -/
def IndexJs.checkbox (name : String) (checked : Bool) (options : JSObj) : Node :=
  IndexJs.booleanInput "checkbox" name checked options

/-! ## Class generation (`src/src/Html.js`)

The class methods can throw at runtime (the `data` branch of
`setAttributes` hits a temporal-dead-zone `ReferenceError`, `select` and
`listBox` call a method the class does not define, `form` calls
`decodeURIComponent`), so every builder is `Except`-valued. -/

/-- One iteration of the `for (let name in attributes)` loop of
`Html.setAttributes` from `src/src/Html.js`.  In order: a numeric-parsing
truthy key is skipped; a boolean value whose key is a boolean attribute
sets the IDL property when `true` and does nothing when `false`; a truthy
object value is handled only for `class` (array join) and `data` — and
the `data` branch declares `let value = value[name]`, reading the inner
`value` inside its own initializer, which throws a `ReferenceError` on
the first iteration (so any non-empty object or array value throws);
every remaining value other than the empty string is passed to
`setAttribute`, whose string conversion turns `null` into the attribute
text `null` and `false` into `false`. -/
def Html.setAttrStep (element : Node) (name : String) (value : JSValue) : Except String Node :=
  if jsNumericTruthy name then Except.ok element
  else if value.typeof = "boolean" && booleanAttributes.contains name then
    match value with
    | JSValue.bool true => Except.ok (element.setProp name true)
    | _ => Except.ok element
  else if value.truthy && value.typeof = "object" then
    if name = "class" && value.isArray then
      Except.ok (element.setAttr "class" (JSValue.joinElems " " (match value with
        | JSValue.arr xs => xs
        | _ => [])))
    else if name = "data" then
      if value.entries.isEmpty then Except.ok element
      else Except.error "ReferenceError: cannot access value before initialization"
    else Except.ok element
  else
    match value with
    | JSValue.str "" => Except.ok element
    | v => Except.ok (element.setAttr name v.toStr)

/-- `Html.setAttributes` from `src/src/Html.js` (the early return for a
non-object element or attribute bag never fires in the modelled calls,
which always pass both). -/
def Html.setAttributes (element : Node) (attributes : JSObj) : Except String Node :=
  attributes.foldlM (fun el kv => Html.setAttrStep el kv.fst kv.snd) element

/-- `Html.renderContent` from `src/src/Html.js`: arrays and node lists
append child by child; any other `object` goes through `appendChild`, so
`null` (whose `typeof` is `object`) throws a `TypeError`; a string is
assigned to `innerHTML` and therefore parsed as markup; anything else
(`undefined`) does nothing. -/
def Html.renderContent (element : Node) : Content → Except String Node
  | Content.arr xs => Except.ok (element.appendChildren xs)
  | Content.node n => Except.ok (element.appendChild n)
  | Content.nullc => Except.error "TypeError: appendChild argument is not a node"
  | Content.str s => Except.ok (element.withChildren (hostParseHTML s))
  | Content.undef => Except.ok element

/-- `Html.tag` from `src/src/Html.js`. -/
def Html.tag (name : String) (content : Content) (options : JSObj) : Except String Node := do
  let element := Node.element name [] [] [] [] []
  let element ← Html.setAttributes element options
  if voidElements.contains name then Except.ok element
  else Html.renderContent element content

/-- The in-place mutation `options.href = url` performed by `Html.a` when
`url !== null`. -/
def Html.aOptions (url : Option String) (options : JSObj) : JSObj :=
  match url with
  | some u => setKey options "href" (JSValue.str u)
  | none => options

/-- `Html.a` from `src/src/Html.js`. -/
def Html.a (text : String) (url : Option String) (options : JSObj) : Except String Node :=
  Html.tag "a" (Content.str text) (Html.aOptions url options)

/-- The in-place mutation `options.src = src` performed by `Html.img`. -/
def Html.imgOptions (src : String) (options : JSObj) : JSObj :=
  setKey options "src" (JSValue.str src)

/-- `Html.img` from `src/src/Html.js`. -/
def Html.img (src : String) (options : JSObj) : Except String Node :=
  Html.tag "img" Content.nullc (Html.imgOptions src options)

/-- The in-place mutations of `Html.input`: `options.type = type` unless
`options.type` is already truthy, then `options.name = name` and
`options.value = value`. -/
def Html.inputOptions (ty name : String) (value : JSValue) (options : JSObj) : JSObj :=
  let o1 := if optTruthy options "type" then options else setKey options "type" (JSValue.str ty)
  setKey (setKey o1 "name" (JSValue.str name)) "value" value

/-- `Html.input` from `src/src/Html.js` (void element). -/
def Html.input (ty name : String) (value : JSValue) (options : JSObj) : Except String Node :=
  Html.tag "input" Content.nullc (Html.inputOptions ty name value options)

/-- `Html.hiddenInput` from `src/src/Html.js`. -/
def Html.hiddenInput (name : String) (value : JSValue) (options : JSObj) : Except String Node :=
  Html.input "hidden" name value options

/-- `Html.label` from `src/src/Html.js`: sets `options.for` when the
target is truthy (the empty string is not). -/
def Html.label (content : Content) (target : Option String) (options : JSObj) : Except String Node :=
  Html.tag "label" content
    (match target with
     | some t => if t ≠ "" then setKey options "for" (JSValue.str t) else options
     | none => options)

/-- `Html.text` from `src/src/Html.js` (`document.createTextNode`). -/
def Html.text (s : String) : Node :=
  Node.text s

/-- `Html.button` from `src/src/Html.js`: defaults `options.type` to
`button` when not already truthy. -/
def Html.button (content : Content) (options : JSObj) : Except String Node :=
  Html.tag "button" content
    (if optTruthy options "type" then options else setKey options "type" (JSValue.str "button"))

/-- `Html.resetButton` from `src/src/Html.js`.  The body sets
`options.type = 'reset'` and calls `this.button`, but has no `return`
statement: the constructed button is discarded and the call evaluates to
`undefined`.  The result pairs the element that was built and dropped
with the actual return value (`none`, that is `undefined`). -/
def Html.resetButton (content : Content) (options : JSObj) : Except String (Node × Option Node) := do
  let built ← Html.button content (setKey options "type" (JSValue.str "reset"))
  Except.ok (built, none)

/-- `Html.submitButton` from `src/src/Html.js`.  The body sets
`options.type = 'reset'` — not `'submit'` — and, like `resetButton`,
lacks a `return`: the call evaluates to `undefined`.  The result pairs
the discarded element with the returned `undefined`. -/
def Html.submitButton (content : Content) (options : JSObj) : Except String (Node × Option Node) := do
  let built ← Html.button content (setKey options "type" (JSValue.str "reset"))
  Except.ok (built, none)

/-- `Html.booleanInput` from `src/src/Html.js`: sets `options.checked`,
defaults the value to the number `1`, appends a hidden input for
`options.uncheck` to a fresh fragment (forwarding a truthy
`options.form`), and then either returns
`this.label([input, text], '', labelOptions)` — discarding the fragment
and the hidden input with it — when `options.label` is truthy, or
appends the input to the fragment and returns the fragment. -/
def Html.booleanInput (ty name : String) (checked : Bool) (options : JSObj) : Except String Node := do
  let options := setKey options "checked" (JSValue.bool checked)
  let value := if optTruthy options "value" then (getKey options "value").getD JSValue.nullv
    else JSValue.num 1
  let fragAndOptions ←
    if optTruthy options "uncheck" then do
      let hiddenOptions : JSObj :=
        if optTruthy options "form" then
          setKey [] "form" ((getKey options "form").getD JSValue.nullv)
        else []
      let hi ← Html.hiddenInput name ((getKey options "uncheck").getD JSValue.nullv) hiddenOptions
      Except.ok ([hi], delKey options "uncheck")
    else Except.ok (([] : List Node), options)
  let fragChildren := fragAndOptions.fst
  let options := fragAndOptions.snd
  if optTruthy options "label" then
    let labelText := ((getKey options "label").getD JSValue.nullv).toStr
    let labelOptions := ((getKey options "labelOptions").getD (JSValue.obj [])).objFields
    let options := delKey options "label"
    let inp ← Html.input ty name value options
    Html.label (Content.arr [inp, Html.text labelText]) (some "") labelOptions
  else do
    let inp ← Html.input ty name value options
    Except.ok (Node.fragment (fragChildren ++ [inp]))

/-- `Html.form` from `src/src/Html.js`: the same GET query decomposition
as the function generation (`URLSearchParams` plus a second
`decodeURIComponent` pass), building the attribute bag with
`Object.assign({}, options, {action, method})`. -/
def Html.form (action method : String) (options : JSObj) : Except String Node := do
  if strToLower method = "get" && strContainsChar action '?' then
    let query := String.mk ((action.data.dropWhile fun c => c != '?').drop 1)
    let truncated := String.mk (action.data.takeWhile fun c => c != '?')
    let pairs ← doubleDecodePairs query
    let hidden ← pairs.mapM fun kv => Html.hiddenInput kv.fst (JSValue.str kv.snd) []
    Html.tag "form" (Content.node (Node.fragment hidden))
      (setKey (setKey options "action" (JSValue.str truncated)) "method" (JSValue.str method))
  else
    Html.tag "form" (Content.node (Node.fragment []))
      (setKey (setKey options "action" (JSValue.str action)) "method" (JSValue.str method))

/-- The calls `this.renderSelectOptions(selection, items, options)` made
by `Html.select` and `Html.listBox` in `src/src/Html.js`: the class
defines no method of that name (only the function generation does), so
every such call throws a `TypeError`. -/
def Html.renderSelectOptions (_selection : JSValue) (_items : JSObj) (_options : JSObj) :
    Except String Content :=
  Except.error "TypeError: this.renderSelectOptions is not a function"

/-- `Html.listBox` from `src/src/Html.js`: defaults `size` to 4; appends
`[]` to a non-empty name when `options.multiple` is truthy and the name
ALREADY contains `[]` (the condition is `name.includes`, not its
negation); on a truthy `options.unselect`, strips the last two characters
from a name containing `[]` and appends a hidden input carrying the
unselect value to the fragment before the select; finally calls the
missing `this.renderSelectOptions`, which throws. -/
def Html.listBox (name : String) (selection : JSValue) (items : JSObj) (options : JSObj) :
    Except String Node := do
  let options := if optTruthy options "size" then options else setKey options "size" (JSValue.num 4)
  let name :=
    if optTruthy options "multiple" && name ≠ "" && strIncludes name "[]" then
      name ++ "[]"
    else name
  let options := setKey options "name" (JSValue.str name)
  let hiddenAndOptions ←
    if optTruthy options "unselect" then do
      let name2 := if name ≠ "" && strIncludes name "[]" then strDropRight name 2 else name
      let hi ← Html.hiddenInput name2 ((getKey options "unselect").getD JSValue.nullv) []
      Except.ok ([hi], delKey options "unselect")
    else Except.ok (([] : List Node), options)
  let selectOptions ← Html.renderSelectOptions selection items hiddenAndOptions.snd
  let sel ← Html.tag "select" selectOptions hiddenAndOptions.snd
  Except.ok (Node.fragment (hiddenAndOptions.fst ++ [sel]))

/-- `Html.select` from `src/src/Html.js`: delegates to `listBox` when
`options.multiple` is truthy, otherwise deletes `options.unselect` and
calls the missing `this.renderSelectOptions`, which throws. -/
def Html.select (name : String) (selection : JSValue) (items : JSObj) (options : JSObj) :
    Except String Node := do
  if optTruthy options "multiple" then Html.listBox name selection items options
  else do
    let options := setKey options "name" (JSValue.str name)
    let options := delKey options "unselect"
    let selectOptions ← Html.renderSelectOptions selection items options
    Html.tag "select" selectOptions options

/-! # Supporting lemmas -/

section AssocListLemmas

variable {A : Type}

@[simp] theorem getKey_nil (key : String) : getKey ([] : List (String × A)) key = none := rfl

theorem getKey_cons (k : String) (v : A) (rest : List (String × A)) (key : String) :
    getKey ((k, v) :: rest) key = if k = key then some v else getKey rest key := rfl

@[simp] theorem getKey_setKey_self (l : List (String × A)) (key : String) (v : A) :
    getKey (setKey l key v) key = some v := by
  induction l with
  | nil => simp [setKey, getKey]
  | cons head rest ih =>
      obtain ⟨k, w⟩ := head
      by_cases h : k = key <;> simp [setKey, getKey, h, ih]

@[simp] theorem getKey_setKey_ne (l : List (String × A)) (key other : String) (v : A)
    (h : key ≠ other) : getKey (setKey l key v) other = getKey l other := by
  induction l with
  | nil => simp [setKey, getKey, h]
  | cons head rest ih =>
      obtain ⟨k, w⟩ := head
      by_cases hk : k = key
      · subst hk
        simp [setKey, getKey, h]
      · simp [setKey, getKey, hk, ih]

theorem getKey_eq_none_of_not_mem (l : List (String × A)) (key : String)
    (h : key ∉ l.map Prod.fst) : getKey l key = none := by
  induction l with
  | nil => rfl
  | cons head rest ih =>
      obtain ⟨k, w⟩ := head
      rw [List.map_cons, List.mem_cons] at h
      push_neg at h
      have hne : ¬k = key := fun hk => h.1 (hk ▸ rfl)
      simp [getKey, hne, ih h.2]

end AssocListLemmas

theorem ObjectHelper.isObject_iff (v : JSValue) :
    ObjectHelper.isObject v = true ↔ ∃ fields, v = JSValue.obj fields := by
  cases v <;> simp [ObjectHelper.isObject, JSValue.isNull, JSValue.typeof, JSValue.isArray]

/-- Characterization of one whole-source merge pass of the current
generation: the merged value at a key is determined by the source value
at that key (recursive merge for object values, plain overwrite
otherwise, untouched for absent keys). -/
theorem getKey_mergeFields :
    ∀ (b : List (String × JSValue)), (b.map Prod.fst).Nodup →
    ∀ (a : List (String × JSValue)) (k : String),
      getKey (ObjectHelper.mergeFields a b) k =
        match getKey b k with
        | none => getKey a k
        | some (JSValue.obj bf) =>
            some (JSValue.obj (ObjectHelper.mergeFields (ObjectHelper.mergeBase (getKey a k)) bf))
        | some vb => some vb := by
  intro b
  induction b with
  | nil => intro _ a k; simp [ObjectHelper.mergeFields]
  | cons hd rest ih =>
      intro hnodup a k
      obtain ⟨k1, v1⟩ := hd
      rw [List.map_cons, List.nodup_cons] at hnodup
      obtain ⟨hk1, hrest⟩ := hnodup
      by_cases hkk : k1 = k
      · subst hkk
        have hnone : getKey rest k1 = none := getKey_eq_none_of_not_mem rest k1 hk1
        cases v1 <;>
          simp [ObjectHelper.mergeFields, ih hrest, hnone, getKey_cons, ObjectHelper.mergeBase]
      · cases v1 <;>
          simp [ObjectHelper.mergeFields, ih hrest, getKey_cons, hkk,
            getKey_setKey_ne _ _ _ _ hkk]

/-- Equation lemma: a non-object source field is a plain overwrite in the
legacy merge. -/
theorem ObjectHelperOld.mergeFields_cons_nonobj (a : JSObj) (k1 : String) (v1 : JSValue)
    (h : ObjectHelper.isObject v1 = false) (rest : JSObj) :
    ObjectHelperOld.mergeFields a ((k1, v1) :: rest) =
      ObjectHelperOld.mergeFields (setKey a k1 v1) rest := by
  cases v1 <;> simp_all [ObjectHelperOld.mergeFields, ObjectHelper.isObject, JSValue.isNull,
    JSValue.typeof, JSValue.isArray]

/-- Characterization of one whole-source pass of the legacy merge, under
the hypothesis that it returned (rather than threw): the merged value at
a key follows the same discipline as the current generation, with the
recursive call expressed through the legacy `mergeFields` itself. -/
theorem getKey_mergeFieldsOld :
    ∀ (b : List (String × JSValue)), (b.map Prod.fst).Nodup →
    ∀ (a m : List (String × JSValue)), ObjectHelperOld.mergeFields a b = Except.ok m →
    ∀ (k : String),
      (getKey b k = none → getKey m k = getKey a k)
      ∧ (∀ bf af, getKey b k = some (JSValue.obj bf) → getKey a k = some (JSValue.obj af) →
          ∃ r, ObjectHelperOld.mergeFields af bf = Except.ok r ∧
            getKey m k = some (JSValue.obj r))
      ∧ (∀ vb, getKey b k = some vb → ObjectHelper.isObject vb = false →
          getKey m k = some vb) := by
  intro b
  induction b with
  | nil =>
      intro _ a m h k
      obtain rfl : a = m := by simpa [ObjectHelperOld.mergeFields] using h
      refine ⟨fun _ => rfl, ?_, ?_⟩
      · intro bf af hb _
        simp at hb
      · intro vb hb _
        simp at hb
  | cons hd rest ih =>
      intro hnodup a m h k
      obtain ⟨k1, v1⟩ := hd
      rw [List.map_cons, List.nodup_cons] at hnodup
      obtain ⟨hk1, hrest⟩ := hnodup
      by_cases hobj : ObjectHelper.isObject v1 = true
      · obtain ⟨sf, rfl⟩ := (ObjectHelper.isObject_iff v1).1 hobj
        simp only [ObjectHelperOld.mergeFields] at h
        obtain ⟨tf, htf, merged, hinner, houter⟩ :
            ∃ tf,
              getKey
                (match getKey a k1 with
                  | some v => if v.truthy then a else setKey a k1 (JSValue.obj [])
                  | none => setKey a k1 (JSValue.obj [])) k1 = some (JSValue.obj tf) ∧
            ∃ merged, ObjectHelperOld.mergeFields tf sf = Except.ok merged ∧
              ObjectHelperOld.mergeFields
                (setKey
                  (match getKey a k1 with
                    | some v => if v.truthy then a else setKey a k1 (JSValue.obj [])
                    | none => setKey a k1 (JSValue.obj [])) k1 (JSValue.obj merged)) rest
                = Except.ok m := by
          cases hm1 :
              getKey
                (match getKey a k1 with
                  | some v => if v.truthy then a else setKey a k1 (JSValue.obj [])
                  | none => setKey a k1 (JSValue.obj [])) k1 with
          | none => rw [hm1] at h; simp at h
          | some w =>
              cases w with
              | obj tf =>
                  rw [hm1] at h
                  simp only [Except.bind] at h
                  cases hinner : ObjectHelperOld.mergeFields tf sf with
                  | error e => rw [hinner] at h; simp at h
                  | ok merged =>
                      rw [hinner] at h
                      simp at h
                      exact ⟨tf, rfl, merged, hinner, h⟩
              | nullv => rw [hm1] at h; simp at h
              | bool bb => rw [hm1] at h; simp at h
              | num nn => rw [hm1] at h; simp at h
              | str ss => rw [hm1] at h; simp at h
              | arr xx => rw [hm1] at h; simp at h
        have ihres := ih hrest _ m houter k
        by_cases hkk : k1 = k
        · subst hkk
          have hnone : getKey rest k1 = none := getKey_eq_none_of_not_mem rest k1 hk1
          refine ⟨?_, ?_, ?_⟩
          · intro hb
            rw [getKey_cons] at hb
            simp at hb
          · intro bf af hb hga
            rw [getKey_cons] at hb
            simp at hb
            subst hb
            rw [hga] at htf
            simp [JSValue.truthy] at htf
            rw [hga] at htf
            simp at htf
            subst htf
            refine ⟨merged, hinner, ?_⟩
            rw [ihres.1 hnone, getKey_setKey_self]
          · intro vb hb hvb
            rw [getKey_cons] at hb
            simp at hb
            subst hb
            simp [ObjectHelper.isObject, JSValue.isNull, JSValue.typeof, JSValue.isArray] at hvb
        · have htransport :
              getKey
                (setKey
                  (match getKey a k1 with
                    | some v => if v.truthy then a else setKey a k1 (JSValue.obj [])
                    | none => setKey a k1 (JSValue.obj [])) k1 (JSValue.obj merged)) k
                = getKey a k := by
            rw [getKey_setKey_ne _ _ _ _ hkk]
            cases hga : getKey a k1 with
            | none => rw [getKey_setKey_ne _ _ _ _ hkk]
            | some v =>
                by_cases hv : v.truthy = true
                · simp [hv]
                · simp [hv, getKey_setKey_ne _ _ _ _ hkk]
          refine ⟨?_, ?_, ?_⟩
          · intro hb
            rw [getKey_cons, if_neg hkk] at hb
            rw [ihres.1 hb, htransport]
          · intro bf af hb hga
            rw [getKey_cons, if_neg hkk] at hb
            have h2 := ihres.2.1 bf af hb
            rw [htransport] at h2
            exact h2 hga
          · intro vb hb hvb
            rw [getKey_cons, if_neg hkk] at hb
            exact ihres.2.2 vb hb hvb
      · have hobjf : ObjectHelper.isObject v1 = false := by
          cases hv : ObjectHelper.isObject v1
          · rfl
          · exact absurd hv hobj
        rw [ObjectHelperOld.mergeFields_cons_nonobj a k1 v1 hobjf rest] at h
        have ihres := ih hrest _ m h k
        by_cases hkk : k1 = k
        · subst hkk
          have hnone : getKey rest k1 = none := getKey_eq_none_of_not_mem rest k1 hk1
          refine ⟨?_, ?_, ?_⟩
          · intro hb
            rw [getKey_cons] at hb
            simp at hb
          · intro bf af hb _
            rw [getKey_cons] at hb
            simp at hb
            subst hb
            simp [ObjectHelper.isObject, JSValue.isNull, JSValue.typeof, JSValue.isArray] at hobjf
          · intro vb hb _
            rw [getKey_cons] at hb
            simp at hb
            subst hb
            rw [ihres.1 hnone, getKey_setKey_self]
        · refine ⟨?_, ?_, ?_⟩
          · intro hb
            rw [getKey_cons, if_neg hkk] at hb
            rw [ihres.1 hb, getKey_setKey_ne _ _ _ _ hkk]
          · intro bf af hb hga
            rw [getKey_cons, if_neg hkk] at hb
            have h2 := ihres.2.1 bf af hb
            rw [getKey_setKey_ne _ _ _ _ hkk] at h2
            exact h2 hga
          · intro vb hb hvb
            rw [getKey_cons, if_neg hkk] at hb
            exact ihres.2.2 vb hb hvb

/-! # Claim theorems -/

/-- **C5** For all mappings `a` and `b` sharing a key `k`, `merge(a, b)`
stores at `k` the recursive merge of `a[k]` and `b[k]` when both values
are mappings (not a wholesale overwrite), and stores exactly `b[k]` when
`b[k]` is a non-mapping value (overwrite, including wholesale replacement
of arrays).  Proved for both generations of `ObjectHelper.merge`, the
legacy one under the hypothesis that the call returned rather than threw. -/
theorem merge_shared_key_recursive_or_overwrite
    (a b m mOld : List (String × JSValue)) (k : String)
    (hnodup : (b.map Prod.fst).Nodup)
    (va vb : JSValue) (ha : getKey a k = some va) (hb : getKey b k = some vb)
    (hm : ObjectHelper.merge (JSValue.obj a) [JSValue.obj b] = Except.ok (JSValue.obj m))
    (hmOld : ObjectHelperOld.merge (JSValue.obj a) [JSValue.obj b] = Except.ok (JSValue.obj mOld)) :
    (∀ af bf, va = JSValue.obj af → vb = JSValue.obj bf →
        (∃ r, ObjectHelper.merge va [vb] = Except.ok (JSValue.obj r) ∧
          getKey m k = some (JSValue.obj r))
        ∧ (∃ r, ObjectHelperOld.merge va [vb] = Except.ok (JSValue.obj r) ∧
          getKey mOld k = some (JSValue.obj r)))
    ∧ (ObjectHelper.isObject vb = false →
        getKey m k = some vb ∧ getKey mOld k = some vb) := by
  have hm2 : ObjectHelper.mergeFields a b = m := by
    simpa [ObjectHelper.merge, ObjectHelper.mergeSource] using hm
  have hmOld2 : ObjectHelperOld.mergeFields a b = Except.ok mOld := by
    simp only [ObjectHelperOld.merge, Except.bind] at hmOld
    cases hold : ObjectHelperOld.mergeFields a b with
    | error e => rw [hold] at hmOld; simp at hmOld
    | ok mo =>
        rw [hold] at hmOld
        simp at hmOld
        rw [hmOld]
  subst hm2
  have oldchar := getKey_mergeFieldsOld b hnodup a mOld hmOld2 k
  constructor
  · intro af bf hva hvb
    subst hva
    subst hvb
    constructor
    · refine ⟨ObjectHelper.mergeFields af bf, ?_, ?_⟩
      · simp [ObjectHelper.merge, ObjectHelper.mergeSource]
      · rw [getKey_mergeFields b hnodup a k, hb, ha]
        simp [ObjectHelper.mergeBase]
    · obtain ⟨r, hr, hget⟩ := oldchar.2.1 bf af hb ha
      refine ⟨r, ?_, hget⟩
      simp [ObjectHelperOld.merge, Except.bind, hr]
  · intro hvb
    constructor
    · rw [getKey_mergeFields b hnodup a k, hb]
      cases vb <;>
        simp_all [ObjectHelper.isObject, JSValue.isNull, JSValue.typeof, JSValue.isArray]
    · exact oldchar.2.2 vb hb hvb

/-- Witness for C5: the theorem applied at the mappings
`a = {k: {x: 1}, p: 5}`, `b = {k: {y: 2}, q: [3]}` with the shared key
`k` holding objects on both sides. -/
theorem merge_shared_key_recursive_or_overwrite_witness :
    ((∃ r, ObjectHelper.merge (JSValue.obj [("x", JSValue.num 1)])
          [JSValue.obj [("y", JSValue.num 2)]] = Except.ok (JSValue.obj r) ∧
        getKey [("k", JSValue.obj [("x", JSValue.num 1), ("y", JSValue.num 2)]),
          ("p", JSValue.num 5), ("q", JSValue.arr [JSValue.num 3])] "k"
          = some (JSValue.obj r))
      ∧ (∃ r, ObjectHelperOld.merge (JSValue.obj [("x", JSValue.num 1)])
          [JSValue.obj [("y", JSValue.num 2)]] = Except.ok (JSValue.obj r) ∧
        getKey [("k", JSValue.obj [("x", JSValue.num 1), ("y", JSValue.num 2)]),
          ("p", JSValue.num 5), ("q", JSValue.arr [JSValue.num 3])] "k"
          = some (JSValue.obj r))) :=
  (merge_shared_key_recursive_or_overwrite
    [("k", JSValue.obj [("x", JSValue.num 1)]), ("p", JSValue.num 5)]
    [("k", JSValue.obj [("y", JSValue.num 2)]), ("q", JSValue.arr [JSValue.num 3])]
    [("k", JSValue.obj [("x", JSValue.num 1), ("y", JSValue.num 2)]),
      ("p", JSValue.num 5), ("q", JSValue.arr [JSValue.num 3])]
    [("k", JSValue.obj [("x", JSValue.num 1), ("y", JSValue.num 2)]),
      ("p", JSValue.num 5), ("q", JSValue.arr [JSValue.num 3])]
    "k" (by decide)
    (JSValue.obj [("x", JSValue.num 1)]) (JSValue.obj [("y", JSValue.num 2)])
    (by simp [getKey]) (by simp [getKey])
    (by simp [ObjectHelper.merge, ObjectHelper.mergeSource, ObjectHelper.mergeFields,
      ObjectHelper.mergeBase, setKey, getKey])
    (by simp [ObjectHelperOld.merge, ObjectHelperOld.mergeFields, setKey, getKey,
      Except.bind, JSValue.truthy])).1
    [("x", JSValue.num 1)] [("y", JSValue.num 2)] rfl rfl

/-- **C6** `merge(target, ...sources)` raises the invalid-argument error
whenever the target is not a mapping (in particular `merge(null, {})` and
`merge(1, {})` both fail), while every non-mapping source is silently
skipped: merging a valid mapping target with null, numeric, or string
sources raises nothing and returns the target unchanged.  Proved for
both generations (whose thrown `Error` carries the message shown). -/
theorem merge_invalid_target_errors_nonmapping_sources_skipped :
    (∀ (t : JSValue) (sources : List JSValue), ObjectHelper.isObject t = false →
        ObjectHelper.merge t sources = Except.error "Target must be an object")
    ∧ ObjectHelper.merge JSValue.nullv [JSValue.obj []] = Except.error "Target must be an object"
    ∧ ObjectHelper.merge (JSValue.num 1) [JSValue.obj []] = Except.error "Target must be an object"
    ∧ (∀ (tf : List (String × JSValue)) (sources : List JSValue),
        (∀ s ∈ sources, ObjectHelper.isObject s = false) →
        ObjectHelper.merge (JSValue.obj tf) sources = Except.ok (JSValue.obj tf))
    ∧ (∀ (t : JSValue) (sources : List JSValue), ObjectHelperOld.isObject t = false →
        ObjectHelperOld.merge t sources = Except.error "Target is not an object")
    ∧ ObjectHelperOld.merge JSValue.nullv [JSValue.obj []] = Except.error "Target is not an object"
    ∧ ObjectHelperOld.merge (JSValue.num 1) [JSValue.obj []] = Except.error "Target is not an object"
    ∧ (∀ (tf : List (String × JSValue)) (sources : List JSValue),
        (∀ s ∈ sources, ObjectHelperOld.isObject s = false) →
        ObjectHelperOld.merge (JSValue.obj tf) sources = Except.ok (JSValue.obj tf)) := by
  refine ⟨?_, rfl, rfl, ?_, ?_, rfl, rfl, ?_⟩
  · intro t sources ht
    cases t <;> simp_all [ObjectHelper.merge, ObjectHelper.isObject, JSValue.isNull,
      JSValue.typeof, JSValue.isArray]
  · intro tf sources hs
    induction sources with
    | nil => simp [ObjectHelper.merge]
    | cons s rest ih =>
        have hrest := ih fun x hx => hs x (List.mem_cons_of_mem s hx)
        have hsrc := hs s (List.mem_cons_self s rest)
        simp only [ObjectHelper.merge] at hrest ⊢
        cases s <;> simp_all [ObjectHelper.mergeSource, ObjectHelper.isObject,
          JSValue.isNull, JSValue.typeof, JSValue.isArray]
  · intro t sources ht
    cases t <;> cases sources <;>
      simp_all [ObjectHelperOld.merge, ObjectHelperOld.isObject, JSValue.truthy,
        JSValue.typeof, JSValue.isArray]
  · intro tf sources hs
    induction sources with
    | nil => simp [ObjectHelperOld.merge]
    | cons s rest ih =>
        have hrest := ih fun x hx => hs x (List.mem_cons_of_mem s hx)
        have hsrc := hs s (List.mem_cons_self s rest)
        simp only [ObjectHelperOld.merge, Except.bind]
        cases s <;> simp_all [ObjectHelperOld.isObject, JSValue.truthy,
          JSValue.typeof, JSValue.isArray, Except.bind]

/-- Witness for C6: the theorem applied to the non-mapping targets
`null` and `1` and to the mapping target `{a: 1}` with the skipped
sources `null`, `2`, and a string. -/
theorem merge_invalid_target_errors_nonmapping_sources_skipped_witness :
    ObjectHelper.merge (JSValue.str "oops") [JSValue.obj []]
      = Except.error "Target must be an object"
    ∧ ObjectHelper.merge (JSValue.obj [("a", JSValue.num 1)])
        [JSValue.nullv, JSValue.num 2, JSValue.str "s"]
      = Except.ok (JSValue.obj [("a", JSValue.num 1)])
    ∧ ObjectHelperOld.merge (JSValue.obj [("a", JSValue.num 1)])
        [JSValue.nullv, JSValue.num 2, JSValue.str "s"]
      = Except.ok (JSValue.obj [("a", JSValue.num 1)]) :=
  ⟨merge_invalid_target_errors_nonmapping_sources_skipped.1 (JSValue.str "oops")
      [JSValue.obj []] rfl,
    merge_invalid_target_errors_nonmapping_sources_skipped.2.2.2.1
      [("a", JSValue.num 1)] [JSValue.nullv, JSValue.num 2, JSValue.str "s"]
      (by decide),
    merge_invalid_target_errors_nonmapping_sources_skipped.2.2.2.2.2.2.2
      [("a", JSValue.num 1)] [JSValue.nullv, JSValue.num 2, JSValue.str "s"]
      (by decide)⟩

/-! ## Node and attribute-tracking lemmas -/

@[simp] theorem Node.getAttr_element (t : String) (a : List (String × String))
    (p : List (String × Bool)) (d st : List (String × String)) (c : List Node) (name : String) :
    Node.getAttr (Node.element t a p d st c) name = getKey a name := rfl

@[simp] theorem Node.getProp_element (t : String) (a : List (String × String))
    (p : List (String × Bool)) (d st : List (String × String)) (c : List Node) (name : String) :
    Node.getProp (Node.element t a p d st c) name = getKey p name := rfl

@[simp] theorem Node.childNodes_element (t : String) (a : List (String × String))
    (p : List (String × Bool)) (d st : List (String × String)) (c : List Node) :
    Node.childNodes (Node.element t a p d st c) = c := rfl

theorem setKey_eq_append {A : Type} (l : List (String × A)) (key : String) (v : A)
    (h : getKey l key = none) : setKey l key v = l ++ [(key, v)] := by
  induction l with
  | nil => rfl
  | cons head rest ih =>
      obtain ⟨k, w⟩ := head
      rw [getKey_cons] at h
      by_cases hk : k = key
      · simp [hk] at h
      · simp only [setKey, if_neg hk, List.cons_append, List.cons.injEq, true_and]
        exact ih (by simpa [hk] using h)

theorem mem_keys_setKey {A : Type} (l : List (String × A)) (key k2 : String) (v : A)
    (h : k2 ∈ (setKey l key v).map Prod.fst) : k2 ∈ l.map Prod.fst ∨ k2 = key := by
  induction l with
  | nil => simpa [setKey] using h
  | cons head rest ih =>
      obtain ⟨k3, v3⟩ := head
      by_cases hk3 : k3 = key
      · rw [show setKey ((k3, v3) :: rest) key v = (k3, v) :: rest by simp [setKey, hk3]] at h
        rw [List.map_cons, List.mem_cons] at h
        rcases h with h | h
        · exact Or.inl (by simp [h])
        · exact Or.inl (by simp [List.map_cons, List.mem_cons, h])
      · rw [show setKey ((k3, v3) :: rest) key v = (k3, v3) :: setKey rest key v by
            simp [setKey, hk3]] at h
        rw [List.map_cons, List.mem_cons] at h
        rcases h with h | h
        · exact Or.inl (by simp [h])
        · rcases ih h with h2 | h2
          · exact Or.inl (by simp [List.map_cons, List.mem_cons, h2])
          · exact Or.inr h2

theorem nodup_keys_setKey {A : Type} (l : List (String × A)) (key : String) (v : A)
    (h : (l.map Prod.fst).Nodup) : ((setKey l key v).map Prod.fst).Nodup := by
  induction l with
  | nil => simp [setKey]
  | cons head rest ih =>
      obtain ⟨k, w⟩ := head
      rw [List.map_cons, List.nodup_cons] at h
      by_cases hk : k = key
      · rw [show setKey ((k, w) :: rest) key v = (k, v) :: rest by simp [setKey, hk]]
        rw [List.map_cons, List.nodup_cons]
        exact ⟨h.1, h.2⟩
      · rw [show setKey ((k, w) :: rest) key v = (k, w) :: setKey rest key v by
            simp [setKey, hk]]
        rw [List.map_cons, List.nodup_cons]
        refine ⟨?_, ih h.2⟩
        intro hmem
        rcases mem_keys_setKey rest key k v hmem with h1 | h1
        · exact h.1 h1
        · exact hk h1

/-- A function-generation attribute step with key `k` leaves every
content attribute with a different name alone (on any node). -/
theorem IndexJs.setAttrStep_getAttr_ne (el : Node) (k name : String) (v : JSValue)
    (hk : k ≠ name) :
    (IndexJs.setAttrStep el k v).getAttr name = el.getAttr name := by
  unfold IndexJs.setAttrStep
  split
  · rfl
  · rfl
  · split_ifs with h1 h2 h3 h4
    · cases el <;> simp [Node.setProp, Node.getAttr]
    · rw [Bool.and_eq_true, decide_eq_true_eq] at h2
      have hclass : ¬("class" = name) := h2.1 ▸ hk
      cases el <;> simp [Node.setAttr, Node.getAttr, getKey_setKey_ne _ _ _ _ hclass]
    · cases el <;> simp [Node.assignStyle, Node.getAttr]
    · cases el <;> simp [Node.assignDataset, Node.getAttr]
    · cases el <;> simp [Node.setAttr, Node.getAttr, getKey_setKey_ne _ _ _ _ hk]

/-- A function-generation attribute step never changes the tag or the
children of a node. -/
theorem IndexJs.setAttrStep_tag_children (el : Node) (k : String) (v : JSValue) :
    (IndexJs.setAttrStep el k v).tagOf = el.tagOf
    ∧ (IndexJs.setAttrStep el k v).childNodes = el.childNodes
    ∧ (IndexJs.setAttrStep el k v).isElement = el.isElement := by
  unfold IndexJs.setAttrStep
  split
  · exact ⟨rfl, rfl, rfl⟩
  · exact ⟨rfl, rfl, rfl⟩
  · split_ifs <;>
      cases el <;>
        simp [Node.setProp, Node.setAttr, Node.assignStyle, Node.assignDataset,
          Node.tagOf, Node.childNodes, Node.isElement]

/-- A function-generation step with a plain string value on a key outside
the boolean attribute list is exactly `setAttribute`. -/
theorem IndexJs.setAttrStep_str (t : String) (a : List (String × String))
    (p : List (String × Bool)) (d st : List (String × String)) (c : List Node)
    (key v : String) (hb : key ∉ booleanAttributes) :
    IndexJs.setAttrStep (Node.element t a p d st c) key (JSValue.str v)
      = Node.element t (setKey a key v) p d st c := by
  unfold IndexJs.setAttrStep
  simp [hb, JSValue.isArray, JSValue.typeof, JSValue.toStr, Node.setAttr]

theorem IndexJs.setAttrStep_str_getAttr (el : Node) (key v : String)
    (helem : el.isElement = true) (hb : key ∉ booleanAttributes) :
    (IndexJs.setAttrStep el key (JSValue.str v)).getAttr key = some v := by
  cases el with
  | element t a p d st c =>
      rw [IndexJs.setAttrStep_str t a p d st c key v hb]
      simp
  | text s => simp [Node.isElement] at helem
  | fragment cs => simp [Node.isElement] at helem

/-- Attributes whose name never occurs as a key are untouched by the
function-generation `setAttributes`. -/
theorem IndexJs.setAttributes_getAttr_not_mem (attrs : JSObj) :
    ∀ (el : Node) (name : String), getKey attrs name = none →
      (IndexJs.setAttributes el attrs).getAttr name = el.getAttr name := by
  induction attrs with
  | nil => intro el name _; rfl
  | cons kv rest ih =>
      intro el name h
      obtain ⟨k, v⟩ := kv
      rw [getKey_cons] at h
      have hk : ¬k = name := fun e => by simp [e] at h
      have hrest : getKey rest name = none := by rwa [if_neg hk] at h
      show (IndexJs.setAttributes (IndexJs.setAttrStep el k v) rest).getAttr name = _
      rw [ih _ name hrest, IndexJs.setAttrStep_getAttr_ne el k name v hk]

/-- The function-generation `setAttributes` keeps the tag, the children,
and elementhood of the node. -/
theorem IndexJs.setAttributes_tag_children (attrs : JSObj) :
    ∀ el : Node, (IndexJs.setAttributes el attrs).tagOf = el.tagOf
      ∧ (IndexJs.setAttributes el attrs).childNodes = el.childNodes
      ∧ (IndexJs.setAttributes el attrs).isElement = el.isElement := by
  induction attrs with
  | nil => intro el; exact ⟨rfl, rfl, rfl⟩
  | cons kv rest ih =>
      intro el
      obtain ⟨k, v⟩ := kv
      have hstep := IndexJs.setAttrStep_tag_children el k v
      have hih := ih (IndexJs.setAttrStep el k v)
      exact ⟨hih.1.trans hstep.1, hih.2.1.trans hstep.2.1, hih.2.2.trans hstep.2.2⟩

/-- A key with a string value that occurs exactly once and is not a
boolean attribute ends up verbatim as a content attribute. -/
theorem IndexJs.setAttributes_getAttr_unique_str (attrs : JSObj) :
    ∀ (el : Node) (key v : String), el.isElement = true →
      (attrs.map Prod.fst).Nodup → getKey attrs key = some (JSValue.str v) →
      key ∉ booleanAttributes →
      (IndexJs.setAttributes el attrs).getAttr key = some v := by
  induction attrs with
  | nil =>
      intro el key v _ _ hget _
      simp at hget
  | cons kv rest ih =>
      intro el key v helem hnodup hget hb
      obtain ⟨k, w⟩ := kv
      rw [List.map_cons, List.nodup_cons] at hnodup
      rw [getKey_cons] at hget
      by_cases hk : k = key
      · subst hk
        rw [if_pos rfl] at hget
        injection hget with hw
        subst hw
        show (IndexJs.setAttributes (IndexJs.setAttrStep el k (JSValue.str v)) rest).getAttr k
          = some v
        have hrest : getKey rest k = none := getKey_eq_none_of_not_mem rest k hnodup.1
        rw [IndexJs.setAttributes_getAttr_not_mem rest _ k hrest]
        exact IndexJs.setAttrStep_str_getAttr el k v helem hb
      · rw [if_neg hk] at hget
        show (IndexJs.setAttributes (IndexJs.setAttrStep el k w) rest).getAttr key = some v
        exact ih _ key v ((IndexJs.setAttrStep_tag_children el k w).2.2.trans helem)
          hnodup.2 hget hb

/-- A class-generation attribute step that returns leaves every content
attribute with a different name alone. -/
theorem Html.setAttrStep_getAttr_ne_cls (el : Node) (k name : String) (v : JSValue) (n : Node)
    (hk : k ≠ name) (h : Html.setAttrStep el k v = Except.ok n) :
    n.getAttr name = el.getAttr name := by
  have hclassne : ∀ w, k = "class" →
      Node.getAttr (el.setAttr "class" w) name = el.getAttr name := by
    intro w hc
    have hne : ¬("class" = name) := hc ▸ hk
    cases el <;> simp [Node.setAttr, Node.getAttr, getKey_setKey_ne _ _ _ _ hne]
  unfold Html.setAttrStep at h
  split_ifs at h with hnum hbool hobj hclass hdata hempty
  all_goals try (split at h)
  all_goals try (injection h with h2; subst h2)
  all_goals try rfl
  all_goals try (cases el <;> simp [Node.setProp, Node.setAttr, Node.getAttr,
    getKey_setKey_ne _ _ _ _ hk])
  all_goals
    rw [Bool.and_eq_true, decide_eq_true_eq] at hclass
  all_goals exact hclassne _ hclass.1

/-- A class-generation attribute step that returns keeps the tag, the
children, and elementhood of the node. -/
theorem Html.setAttrStep_tag_children_cls (el : Node) (k : String) (v : JSValue) (n : Node)
    (h : Html.setAttrStep el k v = Except.ok n) :
    n.tagOf = el.tagOf ∧ n.childNodes = el.childNodes ∧ n.isElement = el.isElement := by
  unfold Html.setAttrStep at h
  split_ifs at h with hnum hbool hobj hclass hdata hempty
  all_goals try (split at h)
  all_goals try (injection h with h2; subst h2)
  all_goals try exact ⟨rfl, rfl, rfl⟩
  all_goals
    cases el <;> simp [Node.setProp, Node.setAttr, Node.tagOf, Node.childNodes,
      Node.isElement]

/-- A class-generation step with a non-empty string value whose key does
not parse as a number is exactly `setAttribute`. -/
theorem Html.setAttrStep_str_cls (el : Node) (key v : String)
    (hnum : jsNumericTruthy key = false) (hv : v ≠ "") :
    Html.setAttrStep el key (JSValue.str v) = Except.ok (el.setAttr key v) := by
  unfold Html.setAttrStep
  simp [hnum, JSValue.typeof, JSValue.truthy, JSValue.toStr, hv]

theorem Node.getAttr_setAttr_self (el : Node) (key v : String) (helem : el.isElement = true) :
    (el.setAttr key v).getAttr key = some v := by
  cases el with
  | element t a p d st c => simp [Node.setAttr, Node.getAttr]
  | text s => simp [Node.isElement] at helem
  | fragment cs => simp [Node.isElement] at helem

/-- Splitting one step off a class-generation `setAttributes` run. -/
theorem Html.setAttributes_cons_ok (el n : Node) (k : String) (v : JSValue) (rest : JSObj)
    (h : Html.setAttributes el ((k, v) :: rest) = Except.ok n) :
    ∃ el1, Html.setAttrStep el k v = Except.ok el1 ∧
      Html.setAttributes el1 rest = Except.ok n := by
  have heq : Html.setAttributes el ((k, v) :: rest)
      = (Html.setAttrStep el k v).bind fun el1 => Html.setAttributes el1 rest := rfl
  rw [heq] at h
  cases hstep : Html.setAttrStep el k v with
  | error e => rw [hstep] at h; simp [Except.bind] at h
  | ok el1 =>
      rw [hstep] at h
      simp only [Except.bind] at h
      exact ⟨el1, rfl, h⟩

/-- Attributes whose name never occurs as a key are untouched by a
class-generation `setAttributes` run that returns. -/
theorem Html.setAttributes_getAttr_not_mem_cls (attrs : JSObj) :
    ∀ (el n : Node) (name : String), getKey attrs name = none →
      Html.setAttributes el attrs = Except.ok n → n.getAttr name = el.getAttr name := by
  induction attrs with
  | nil =>
      intro el n name _ h
      obtain rfl : el = n := by
        simpa [Html.setAttributes, pure, Except.pure] using h
      rfl
  | cons kv rest ih =>
      intro el n name h hset
      obtain ⟨k, v⟩ := kv
      rw [getKey_cons] at h
      have hk : ¬k = name := fun e => by simp [e] at h
      have hrest : getKey rest name = none := by rwa [if_neg hk] at h
      obtain ⟨el1, hstep, hfold⟩ := Html.setAttributes_cons_ok el n k v rest hset
      rw [ih el1 n name hrest hfold, Html.setAttrStep_getAttr_ne_cls el k name v el1 hk hstep]

/-- A class-generation `setAttributes` run that returns keeps the tag,
the children, and elementhood of the node. -/
theorem Html.setAttributes_tag_children_cls (attrs : JSObj) :
    ∀ (el n : Node), Html.setAttributes el attrs = Except.ok n →
      n.tagOf = el.tagOf ∧ n.childNodes = el.childNodes ∧ n.isElement = el.isElement := by
  induction attrs with
  | nil =>
      intro el n h
      obtain rfl : el = n := by
        simpa [Html.setAttributes, pure, Except.pure] using h
      exact ⟨rfl, rfl, rfl⟩
  | cons kv rest ih =>
      intro el n hset
      obtain ⟨k, v⟩ := kv
      obtain ⟨el1, hstep, hfold⟩ := Html.setAttributes_cons_ok el n k v rest hset
      have h1 := Html.setAttrStep_tag_children_cls el k v el1 hstep
      have h2 := ih el1 n hfold
      exact ⟨h2.1.trans h1.1, h2.2.1.trans h1.2.1, h2.2.2.trans h1.2.2⟩

/-- A key with a non-empty, non-numeric-parsing string value that occurs
exactly once ends up verbatim as a content attribute in a
class-generation `setAttributes` run that returns. -/
theorem Html.setAttributes_getAttr_unique_str_cls (attrs : JSObj) :
    ∀ (el n : Node) (key v : String), el.isElement = true →
      (attrs.map Prod.fst).Nodup → getKey attrs key = some (JSValue.str v) →
      jsNumericTruthy key = false → v ≠ "" →
      Html.setAttributes el attrs = Except.ok n →
      n.getAttr key = some v := by
  induction attrs with
  | nil =>
      intro el n key v _ _ hget _ _ _
      simp at hget
  | cons kv rest ih =>
      intro el n key v helem hnodup hget hnum hv hset
      obtain ⟨k, w⟩ := kv
      rw [List.map_cons, List.nodup_cons] at hnodup
      rw [getKey_cons] at hget
      obtain ⟨el1, hstep, hfold⟩ := Html.setAttributes_cons_ok el n k w rest hset
      by_cases hk : k = key
      · subst hk
        rw [if_pos rfl] at hget
        injection hget with hw
        subst hw
        rw [Html.setAttrStep_str_cls el k v hnum hv] at hstep
        injection hstep with hel1
        subst hel1
        have hrest : getKey rest k = none := getKey_eq_none_of_not_mem rest k hnodup.1
        rw [Html.setAttributes_getAttr_not_mem_cls rest _ n k hrest hfold]
        exact Node.getAttr_setAttr_self el k v helem
      · rw [if_neg hk] at hget
        exact ih el1 n key v
          ((Html.setAttrStep_tag_children_cls el k w el1 hstep).2.2.trans helem)
          hnodup.2 hget hnum hv hfold

@[simp] theorem Node.getAttr_withChildren (el : Node) (xs : List Node) (name : String) :
    (el.withChildren xs).getAttr name = el.getAttr name := by
  cases el <;> rfl

theorem IndexJs.tag_nonvoid (name : String) (content : Content) (options : JSObj)
    (h : name ∉ voidElements) :
    IndexJs.tag name content options =
      IndexJs.renderContent (IndexJs.setAttributes (Node.element name [] [] [] [] []) options)
        content := by
  unfold IndexJs.tag
  simp [h]

theorem Html.tag_nonvoid_cls (name : String) (content : Content) (options : JSObj)
    (h : name ∉ voidElements) :
    Html.tag name content options =
      (Html.setAttributes (Node.element name [] [] [] [] []) options).bind
        fun el => Html.renderContent el content := by
  unfold Html.tag
  have hc : voidElements.contains name = false := by simp [h]
  simp only [hc, Bool.false_eq_true, if_false]
  rfl

theorem Html.tag_ok_dissect (name : String) (content : Content) (options : JSObj) (n : Node)
    (hnv : name ∉ voidElements)
    (h : Html.tag name content options = Except.ok n) :
    ∃ el1, Html.setAttributes (Node.element name [] [] [] [] []) options = Except.ok el1 ∧
      Html.renderContent el1 content = Except.ok n := by
  rw [Html.tag_nonvoid_cls name content options hnv] at h
  cases hset : Html.setAttributes (Node.element name [] [] [] [] []) options with
  | error e => rw [hset] at h; simp [Except.bind] at h
  | ok el1 =>
      rw [hset] at h
      simp only [Except.bind] at h
      exact ⟨el1, rfl, h⟩

theorem Html.setAttrStep_empty_str (el : Node) (key : String) :
    Html.setAttrStep el key (JSValue.str "") = Except.ok el := by
  unfold Html.setAttrStep
  split_ifs <;> simp_all [JSValue.typeof, JSValue.truthy]

theorem Html.setAttributes_append (l1 l2 : JSObj) :
    ∀ el : Node, Html.setAttributes el (l1 ++ l2)
      = (Html.setAttributes el l1).bind fun x => Html.setAttributes x l2 := by
  induction l1 with
  | nil =>
      intro el
      rfl
  | cons kv rest ih =>
      intro el
      obtain ⟨k, v⟩ := kv
      have lhs : Html.setAttributes el (((k, v) :: rest) ++ l2)
          = (Html.setAttrStep el k v).bind fun x => Html.setAttributes x (rest ++ l2) := rfl
      have rhs : Html.setAttributes el ((k, v) :: rest)
          = (Html.setAttrStep el k v).bind fun x => Html.setAttributes x rest := rfl
      rw [lhs, rhs]
      cases hstep : Html.setAttrStep el k v with
      | error e => rfl
      | ok el1 =>
          simp only [Except.bind]
          exact ih el1

/-- **C9 counterexample** The claim fails as stated: in the class
generation a non-null empty-string url yields an anchor with NO href
attribute (the empty string is omitted like any empty attribute), and in
the function generation a null url with an options mapping already
carrying `href` yields an anchor WITH an href attribute. -/
theorem anchor_null_url_claim_counterexample :
    (∃ n, Html.a "x" (some "") [] = Except.ok n ∧ n.getAttr "href" = none)
    ∧ (IndexJs.a "x" none [("href", JSValue.str "/old")]).getAttr "href" = some "/old" := by
  constructor
  · exact ⟨Node.element "a" [] [] [] [] [Node.text "x"], rfl, rfl⟩
  · rfl

/-- **C9 (amended)** Building an anchor with a null url and an options
mapping not already carrying `href` yields no href attribute; a non-null
url yields an href attribute equal to the url, except that the class
generation omits an empty-string url entirely (it drops every
empty-string attribute value). -/
theorem anchor_null_url_no_href_nonnull_href_amended :
    (∀ (text : String) (opts : JSObj) (n : Node), getKey opts "href" = none →
        Html.a text none opts = Except.ok n → n.getAttr "href" = none)
    ∧ (∀ (text : String) (opts : JSObj), getKey opts "href" = none →
        (IndexJs.a text none opts).getAttr "href" = none)
    ∧ (∀ (text url : String) (opts : JSObj) (n : Node), (opts.map Prod.fst).Nodup →
        url ≠ "" →
        Html.a text (some url) opts = Except.ok n → n.getAttr "href" = some url)
    ∧ (∀ (text url : String) (opts : JSObj), (opts.map Prod.fst).Nodup →
        (IndexJs.a text (some url) opts).getAttr "href" = some url)
    ∧ (∀ (text : String) (opts : JSObj) (n : Node), getKey opts "href" = none →
        Html.a text (some "") opts = Except.ok n → n.getAttr "href" = none) := by
  refine ⟨?_, ?_, ?_, ?_, ?_⟩
  · intro text opts n hget h
    obtain ⟨el1, hset, hrender⟩ := Html.tag_ok_dissect "a" (Content.str text) opts n
      (by decide) h
    have hn : n = el1.withChildren (hostParseHTML text) := by
      simpa [Html.renderContent] using hrender.symm
    subst hn
    rw [Node.getAttr_withChildren]
    rw [Html.setAttributes_getAttr_not_mem_cls opts _ el1 "href" hget hset]
    rfl
  · intro text opts hget
    rw [show IndexJs.a text none opts = IndexJs.tag "a" (Content.str text) opts from rfl]
    rw [IndexJs.tag_nonvoid "a" (Content.str text) opts (by decide)]
    unfold IndexJs.renderContent
    rw [Node.getAttr_withChildren]
    rw [IndexJs.setAttributes_getAttr_not_mem opts _ "href" hget]
    rfl
  · intro text url opts n hnodup hurl h
    have hopts : Html.aOptions (some url) opts = setKey opts "href" (JSValue.str url) := rfl
    rw [show Html.a text (some url) opts
        = Html.tag "a" (Content.str text) (setKey opts "href" (JSValue.str url)) from rfl] at h
    obtain ⟨el1, hset, hrender⟩ := Html.tag_ok_dissect "a" (Content.str text) _ n
      (by decide) h
    have hn : n = el1.withChildren (hostParseHTML text) := by
      simpa [Html.renderContent] using hrender.symm
    subst hn
    rw [Node.getAttr_withChildren]
    exact Html.setAttributes_getAttr_unique_str_cls _ (Node.element "a" [] [] [] [] []) el1
      "href" url rfl
      (nodup_keys_setKey opts "href" (JSValue.str url) hnodup)
      (getKey_setKey_self opts "href" (JSValue.str url)) rfl hurl hset
  · intro text url opts hnodup
    rw [show IndexJs.a text (some url) opts
        = IndexJs.tag "a" (Content.str text) (setKey opts "href" (JSValue.str url)) from rfl]
    rw [IndexJs.tag_nonvoid "a" (Content.str text) _ (by decide)]
    unfold IndexJs.renderContent
    rw [Node.getAttr_withChildren]
    exact IndexJs.setAttributes_getAttr_unique_str _ (Node.element "a" [] [] [] [] [])
      "href" url rfl
      (nodup_keys_setKey opts "href" (JSValue.str url) hnodup)
      (getKey_setKey_self opts "href" (JSValue.str url)) (by decide)
  · intro text opts n hget h
    rw [show Html.a text (some "") opts
        = Html.tag "a" (Content.str text) (setKey opts "href" (JSValue.str "")) from rfl] at h
    rw [setKey_eq_append opts "href" (JSValue.str "") hget] at h
    obtain ⟨el1, hset, hrender⟩ := Html.tag_ok_dissect "a" (Content.str text) _ n
      (by decide) h
    have hn : n = el1.withChildren (hostParseHTML text) := by
      simpa [Html.renderContent] using hrender.symm
    subst hn
    rw [Node.getAttr_withChildren]
    rw [Html.setAttributes_append opts [("href", JSValue.str "")] _] at hset
    cases hpre : Html.setAttributes (Node.element "a" [] [] [] [] []) opts with
    | error e => rw [hpre] at hset; simp [Except.bind] at hset
    | ok el0 =>
        rw [hpre] at hset
        simp only [Except.bind] at hset
        have hone : Html.setAttributes el0 [("href", JSValue.str "")] = Except.ok el0 := by
          show (Html.setAttrStep el0 "href" (JSValue.str "")).bind
            (fun x => Html.setAttributes x []) = Except.ok el0
          rw [Html.setAttrStep_empty_str el0 "href"]
          rfl
        rw [hone] at hset
        injection hset with hset
        subst hset
        rw [Html.setAttributes_getAttr_not_mem_cls opts (Node.element "a" [] [] [] [] []) el0
          "href" hget hpre]
        rfl

/-- **C10** The convenience constructors mutate the caller-supplied
options mapping in place (modelled by the exposed options transformers
that the builders feed to `tag`): after `a` with a non-null url the
options carry `href`; after `img` they carry `src`; after `input` they
carry `type` (when it was absent), `name`, and `value` — so reusing one
options object leaks attributes from earlier calls (final conjunct). -/
theorem builder_options_mutated_in_place
    (opts : JSObj) (url src ty name : String) (value : JSValue) :
    getKey (Html.aOptions (some url) opts) "href" = some (JSValue.str url)
    ∧ getKey (Html.imgOptions src opts) "src" = some (JSValue.str src)
    ∧ (getKey opts "type" = none →
        getKey (Html.inputOptions ty name value opts) "type" = some (JSValue.str ty))
    ∧ getKey (Html.inputOptions ty name value opts) "name" = some (JSValue.str name)
    ∧ getKey (Html.inputOptions ty name value opts) "value" = some value
    ∧ getKey (Html.imgOptions src (Html.aOptions (some url) opts)) "href"
      = some (JSValue.str url) := by
  refine ⟨?_, ?_, ?_, ?_, ?_, ?_⟩
  · simp [Html.aOptions]
  · simp [Html.imgOptions]
  · intro h
    unfold Html.inputOptions
    rw [getKey_setKey_ne _ _ _ _ (by decide), getKey_setKey_ne _ _ _ _ (by decide)]
    simp [optTruthy, h]
  · unfold Html.inputOptions
    rw [getKey_setKey_ne _ _ _ _ (by decide), getKey_setKey_self]
  · unfold Html.inputOptions
    rw [getKey_setKey_self]
  · unfold Html.imgOptions Html.aOptions
    rw [getKey_setKey_ne _ _ _ _ (by decide), getKey_setKey_self]

/-- Witness for C10: the transformers applied to a concrete options
mapping that carries only a `class` entry. -/
theorem builder_options_mutated_in_place_witness :
    getKey (Html.aOptions (some "/u") [("class", JSValue.str "btn")]) "href"
      = some (JSValue.str "/u")
    ∧ getKey (Html.inputOptions "text" "user" (JSValue.str "u")
        [("class", JSValue.str "btn")]) "type" = some (JSValue.str "text") :=
  ⟨(builder_options_mutated_in_place [("class", JSValue.str "btn")] "/u" "i.png" "text"
      "user" (JSValue.str "u")).1,
    (builder_options_mutated_in_place [("class", JSValue.str "btn")] "/u" "i.png" "text"
      "user" (JSValue.str "u")).2.2.1 rfl⟩

/-- **C2** Code-bug evidence.  In the class generation `submitButton`
forces `options.type` to `reset` (not `submit`) and — like `resetButton`
— has no `return` statement, so both calls evaluate to `undefined`
(`none`) while the built button is discarded; the function generation
behaves as the claim states (submit button of type `submit`, reset
button of type `reset`). -/
theorem submit_reset_button_type_and_return_bug :
    (∃ built, Html.submitButton (Content.str "Go") [] = Except.ok (built, (none : Option Node))
      ∧ built.getAttr "type" = some "reset")
    ∧ (∃ built, Html.resetButton (Content.str "Go") [] = Except.ok (built, (none : Option Node))
      ∧ built.getAttr "type" = some "reset")
    ∧ (IndexJs.submitButton (Content.str "Go") []).getAttr "type" = some "submit"
    ∧ (IndexJs.resetButton (Content.str "Go") []).getAttr "type" = some "reset" :=
  ⟨⟨Node.element "button" [("type", "reset")] [] [] [] [Node.text "Go"], rfl, rfl⟩,
    ⟨Node.element "button" [("type", "reset")] [] [] [] [Node.text "Go"], rfl, rfl⟩,
    rfl, rfl⟩

/-- Witness for the amended C9: a concrete anchor in each generation
with a non-null, non-empty url and a `href`-free options mapping. -/
theorem anchor_null_url_no_href_nonnull_href_amended_witness :
    (IndexJs.a "x" (some "/u") [("id", JSValue.str "l")]).getAttr "href" = some "/u"
    ∧ (Node.element "a" [("id", "l"), ("href", "/u")] [] [] [] [Node.text "x"]).getAttr "href"
      = some "/u" :=
  ⟨anchor_null_url_no_href_nonnull_href_amended.2.2.2.1 "x" "/u" [("id", JSValue.str "l")]
      (by decide),
    anchor_null_url_no_href_nonnull_href_amended.2.2.1 "x" "/u" [("id", JSValue.str "l")]
      (Node.element "a" [("id", "l"), ("href", "/u")] [] [] [] [Node.text "x"])
      (by decide) (by decide) rfl⟩

/-- **C4 counterexample** The claim fails as stated on both generations:
the function generation keeps an empty-string value as an empty
attribute (not omitted), and the class generation stringifies `null` to
the attribute text `null` and a non-boolean-set `false` to `false`. -/
theorem setAttributes_omission_claim_counterexample :
    (IndexJs.setAttributes (Node.element "input" [] [] [] [] [])
        [("title", JSValue.str "")]).getAttr "title" = some ""
    ∧ Html.setAttributes (Node.element "input" [] [] [] [] []) [("title", JSValue.nullv)]
      = Except.ok (Node.element "input" [("title", "null")] [] [] [] [])
    ∧ Html.setAttributes (Node.element "input" [] [] [] [] [])
        [("draggable", JSValue.bool false)]
      = Except.ok (Node.element "input" [("draggable", "false")] [] [] [] []) :=
  ⟨rfl, rfl, rfl⟩

/-- **C4 (amended)** Per-entry behaviour of `setAttributes`: the function
generation omits `null` and `false` but keeps an empty-string value as an
empty attribute; the class generation omits empty strings and boolean-set
`false` entries but stringifies `null` (and `false` outside the boolean
set) into literal attribute text; in both generations a boolean-set key
with value `true` sets the native boolean property, and
`{required: true, readonly: false}` on a fresh input yields a true
`required` property and no `readonly` attribute or property at all. -/
theorem setAttributes_omission_and_boolean_amended :
    (∀ (el : Node) (key : String), IndexJs.setAttributes el [(key, JSValue.nullv)] = el)
    ∧ (∀ (el : Node) (key : String), IndexJs.setAttributes el [(key, JSValue.bool false)] = el)
    ∧ (∀ (t : String) (a : List (String × String)) (p : List (String × Bool))
        (d st : List (String × String)) (c : List Node) (key : String),
        key ∉ booleanAttributes →
        IndexJs.setAttributes (Node.element t a p d st c) [(key, JSValue.str "")]
          = Node.element t (setKey a key "") p d st c)
    ∧ (∀ (el : Node) (key : String),
        Html.setAttributes el [(key, JSValue.str "")] = Except.ok el)
    ∧ (∀ (el : Node) (key : String), jsNumericTruthy key = false →
        Html.setAttributes el [(key, JSValue.nullv)] = Except.ok (el.setAttr key "null"))
    ∧ (∀ (el : Node) (key : String), jsNumericTruthy key = false →
        key ∉ booleanAttributes →
        Html.setAttributes el [(key, JSValue.bool false)]
          = Except.ok (el.setAttr key "false"))
    ∧ (∀ (el : Node) (key : String), key ∈ booleanAttributes →
        Html.setAttributes el [(key, JSValue.bool false)] = Except.ok el)
    ∧ (∀ (el : Node) (key : String), key ∈ booleanAttributes →
        IndexJs.setAttributes el [(key, JSValue.bool true)] = el.setProp key true
        ∧ Html.setAttributes el [(key, JSValue.bool true)] = Except.ok (el.setProp key true))
    ∧ ((IndexJs.setAttributes (Node.element "input" [] [] [] [] [])
          [("required", JSValue.bool true), ("readonly", JSValue.bool false)]).getProp
          "required" = some true
        ∧ (IndexJs.setAttributes (Node.element "input" [] [] [] [] [])
          [("required", JSValue.bool true), ("readonly", JSValue.bool false)]).getAttr
          "readonly" = none
        ∧ (IndexJs.setAttributes (Node.element "input" [] [] [] [] [])
          [("required", JSValue.bool true), ("readonly", JSValue.bool false)]).getProp
          "readonly" = none)
    ∧ (Html.setAttributes (Node.element "input" [] [] [] [] [])
          [("required", JSValue.bool true), ("readonly", JSValue.bool false)]
        = Except.ok (Node.element "input" [] [("required", true)] [] [] [])) := by
  refine ⟨fun el key => rfl, fun el key => rfl, ?_, ?_, ?_, ?_, ?_, ?_, ⟨rfl, rfl, rfl⟩, rfl⟩
  · intro t a p d st c key hb
    show IndexJs.setAttrStep (Node.element t a p d st c) key (JSValue.str "") = _
    exact IndexJs.setAttrStep_str t a p d st c key "" hb
  · intro el key
    show (Html.setAttrStep el key (JSValue.str "")).bind (fun x => Html.setAttributes x [])
      = Except.ok el
    rw [Html.setAttrStep_empty_str el key]
    rfl
  · intro el key h
    show (Html.setAttrStep el key JSValue.nullv).bind (fun x => Html.setAttributes x [])
      = Except.ok (el.setAttr key "null")
    unfold Html.setAttrStep
    simp [h, JSValue.typeof, JSValue.truthy, JSValue.toStr]
    rfl
  · intro el key h hb
    show (Html.setAttrStep el key (JSValue.bool false)).bind (fun x => Html.setAttributes x [])
      = Except.ok (el.setAttr key "false")
    unfold Html.setAttrStep
    simp [h, hb, JSValue.typeof, JSValue.truthy, JSValue.toStr]
    rfl
  · intro el key hb
    show (Html.setAttrStep el key (JSValue.bool false)).bind (fun x => Html.setAttributes x [])
      = Except.ok el
    unfold Html.setAttrStep
    have hnum : jsNumericTruthy key = false := by fin_cases hb <;> decide
    simp [hnum, hb, JSValue.typeof]
    rfl
  · intro el key hb
    constructor
    · show IndexJs.setAttrStep el key (JSValue.bool true) = el.setProp key true
      unfold IndexJs.setAttrStep
      simp [hb, JSValue.truthy]
    · show (Html.setAttrStep el key (JSValue.bool true)).bind (fun x => Html.setAttributes x [])
        = Except.ok (el.setProp key true)
      unfold Html.setAttrStep
      have hnum : jsNumericTruthy key = false := by fin_cases hb <;> decide
      simp [hnum, hb, JSValue.typeof]
      rfl

/-- Witness for the amended C4: concrete instances of the quantified
conjuncts. -/
theorem setAttributes_omission_and_boolean_amended_witness :
    IndexJs.setAttributes (Node.element "p" [] [] [] [] []) [("title", JSValue.nullv)]
      = Node.element "p" [] [] [] [] []
    ∧ IndexJs.setAttributes (Node.element "p" [] [] [] [] []) [("title", JSValue.str "")]
      = Node.element "p" [("title", "")] [] [] [] []
    ∧ Html.setAttributes (Node.element "p" [] [] [] [] []) [("title", JSValue.nullv)]
      = Except.ok ((Node.element "p" [] [] [] [] []).setAttr "title" "null")
    ∧ IndexJs.setAttributes (Node.element "input" [] [] [] [] [])
        [("required", JSValue.bool true)]
      = (Node.element "input" [] [] [] [] []).setProp "required" true :=
  ⟨setAttributes_omission_and_boolean_amended.1 (Node.element "p" [] [] [] [] []) "title",
    setAttributes_omission_and_boolean_amended.2.2.1 "p" [] [] [] [] [] "title" (by decide),
    setAttributes_omission_and_boolean_amended.2.2.2.2.1
      (Node.element "p" [] [] [] [] []) "title" (by decide),
    (setAttributes_omission_and_boolean_amended.2.2.2.2.2.2.2.1
      (Node.element "input" [] [] [] [] []) "required" (by decide)).1⟩

/-- **C3 counterexample** In the class generation a string content is
assigned to `innerHTML` and parsed as markup: rendering the string
`<b>x</b>` creates a `b` element child and the resulting text content is
`x`, not the given string. -/
theorem renderContent_literal_text_counterexample :
    Html.renderContent (Node.element "div" [] [] [] [] []) (Content.str "<b>x</b>")
      = Except.ok (Node.element "div" [] [] [] []
          [Node.element "b" [] [] [] [] [Node.text "x"]])
    ∧ Node.isElement (Node.element "b" [] [] [] [] [Node.text "x"]) = true
    ∧ Node.textContent (Node.element "div" [] [] [] []
        [Node.element "b" [] [] [] [] [Node.text "x"]]) = "x"
    ∧ "x" ≠ "<b>x</b>" :=
  ⟨rfl, rfl, rfl, by decide⟩

/-- **C3 (amended)** The function generation inserts string content as
literal text (`textContent`): the text content afterwards equals the
given string and no child is an element.  The class generation instead
assigns the string to `innerHTML`, replacing the children with the
host-parsed markup forest. -/
theorem renderContent_string_literal_amended :
    (∀ (t : String) (a : List (String × String)) (p : List (String × Bool))
        (d st : List (String × String)) (c : List Node) (s : String),
        (IndexJs.renderContent (Node.element t a p d st c) (Content.str s)).textContent = s
        ∧ ∀ x ∈ (IndexJs.renderContent (Node.element t a p d st c)
            (Content.str s)).childNodes, x.isElement = false)
    ∧ (∀ (el : Node) (s : String),
        Html.renderContent el (Content.str s)
          = Except.ok (el.withChildren (hostParseHTML s))) := by
  constructor
  · intro t a p d st c s
    constructor
    · by_cases hs : s = ""
      · subst hs
        rfl
      · simp only [IndexJs.renderContent, if_neg hs]
        show Node.textContentList [Node.text s] = s
        show Node.textContent (Node.text s) ++ Node.textContentList [] = s
        show s ++ "" = s
        exact String.append_empty s
    · intro x hx
      by_cases hs : s = ""
      · subst hs
        simp [IndexJs.renderContent, Node.withChildren, Node.childNodes] at hx
      · simp only [IndexJs.renderContent, if_neg hs, Node.withChildren,
          Node.childNodes, List.mem_singleton] at hx
        subst hx
        rfl
  · intro el s
    rfl

/-- Witness for the amended C3: the function generation rendering a
markup-special string literally. -/
theorem renderContent_string_literal_amended_witness :
    (IndexJs.renderContent (Node.element "div" [] [] [] [] [])
        (Content.str "<b>x</b>")).textContent = "<b>x</b>" :=
  (renderContent_string_literal_amended.1 "div" [] [] [] [] [] "<b>x</b>").1

/-- **C7** Code-bug evidence for the uncheck hidden input.  In the
function generation `booleanInput` creates the hidden input but binds it
to an unused local, so no uncheck usage ever contains it; in the class
generation the hidden input lives in a fragment that the label branch
discards, so it is lost exactly when a label is requested (without a
label the class generation does put the hidden input first, as a sibling
— final conjunct). -/
theorem booleanInput_uncheck_hidden_input_dropped :
    Node.containsHiddenInput (IndexJs.booleanInput "checkbox" "agree" false
        [("uncheck", JSValue.str "0")]) = false
    ∧ (∃ n, Html.booleanInput "checkbox" "agree" false
          [("uncheck", JSValue.str "0"), ("label", JSValue.str "OK")] = Except.ok n
        ∧ Node.containsHiddenInput n = false
        ∧ n.tagOf = "label")
    ∧ (∃ n, Html.booleanInput "checkbox" "agree" false [("uncheck", JSValue.str "0")]
          = Except.ok n
        ∧ n.childNodes.map Node.isHiddenInput = [true, false]) := by
  refine ⟨rfl, ⟨Node.element "label" [] [] [] []
      [Node.element "input" [("type", "checkbox"), ("name", "agree"), ("value", "1")]
        [] [] [] [], Node.text "OK"], rfl, rfl, rfl⟩,
    ⟨Node.fragment
      [Node.element "input" [("type", "hidden"), ("name", "agree"), ("value", "0")] [] [] [] [],
        Node.element "input" [("type", "checkbox"), ("name", "agree"), ("value", "1")]
          [] [] [] []], rfl, rfl⟩⟩

/-- **C8** Code-bug evidence for the multi-select builder.  The class
generation `listBox` always throws (`this.renderSelectOptions` is not
defined on the class), and on the way there its `[]`-append condition is
inverted (`name.includes('[]')` instead of its negation).  The function
generation appends `[]` when missing and defaults `size` to 4 as
claimed, but its unselect hidden input keeps the `[]`-suffixed name
instead of the stripped one the claim requires. -/
theorem listBox_naming_size_unselect_bug :
    Html.listBox "tags" JSValue.nullv [] [("multiple", JSValue.bool true)]
      = Except.error "TypeError: this.renderSelectOptions is not a function"
    ∧ (∃ sel, IndexJs.listBox "tags" JSValue.nullv [] [("multiple", JSValue.bool true)]
        = Node.fragment [sel]
      ∧ sel.getAttr "name" = some "tags[]" ∧ sel.getAttr "size" = some "4")
    ∧ (∃ hidden sel, IndexJs.listBox "tags" JSValue.nullv []
          [("multiple", JSValue.bool true), ("unselect", JSValue.str "0")]
        = Node.fragment [hidden, sel]
      ∧ hidden.isHiddenInput = true
      ∧ hidden.getAttr "name" = some "tags[]"
      ∧ (some "tags[]" : Option String) ≠ some "tags") := by
  refine ⟨rfl,
    ⟨Node.element "select" [("multiple", "true"), ("size", "4"), ("name", "tags[]")]
        [] [] [] [], rfl, rfl, rfl⟩,
    ⟨Node.element "input" [("type", "hidden"), ("name", "tags[]"), ("value", "0")]
        [] [] [] [],
      Node.element "select" [("multiple", "true"), ("size", "4"), ("name", "tags[]")]
        [] [] [] [], rfl, rfl, rfl, by decide⟩⟩

@[simp] theorem Node.getAttr_appendRaw (el : Node) (xs : List Node) (name : String) :
    (el.appendRaw xs).getAttr name = el.getAttr name := by
  cases el <;> rfl

@[simp] theorem Node.tagOf_appendRaw (el : Node) (xs : List Node) :
    (el.appendRaw xs).tagOf = el.tagOf := by
  cases el <;> rfl

theorem Node.childNodes_appendRaw (el : Node) (xs : List Node) (h : el.isElement = true) :
    (el.appendRaw xs).childNodes = el.childNodes ++ xs := by
  cases el with
  | element t a p d st c => rfl
  | text s => simp [Node.isElement] at h
  | fragment c => simp [Node.isElement] at h

/-- The function-generation hidden input on a plain string value. -/
theorem IndexJs.hiddenInput_str (k v : String) :
    IndexJs.hiddenInput k (JSValue.str v) []
      = Node.element "input" [("type", "hidden"), ("name", k), ("value", v)] [] [] [] [] :=
  rfl

theorem Html.tag_void (name : String) (content : Content) (options : JSObj)
    (h : name ∈ voidElements) :
    Html.tag name content options
      = Html.setAttributes (Node.element name [] [] [] [] []) options := by
  unfold Html.tag
  have hc : voidElements.contains name = true := by simp [h]
  simp only [hc, if_true]
  cases Html.setAttributes (Node.element name [] [] [] [] []) options <;> rfl

theorem Html.setAttributes_three_str (el : Node) (k1 v1 k2 v2 k3 v3 : String)
    (h1 : jsNumericTruthy k1 = false) (hv1 : v1 ≠ "")
    (h2 : jsNumericTruthy k2 = false) (hv2 : v2 ≠ "")
    (h3 : jsNumericTruthy k3 = false) (hv3 : v3 ≠ "") :
    Html.setAttributes el [(k1, JSValue.str v1), (k2, JSValue.str v2), (k3, JSValue.str v3)]
      = Except.ok (((el.setAttr k1 v1).setAttr k2 v2).setAttr k3 v3) := by
  show (Html.setAttrStep el k1 (JSValue.str v1)).bind _ = _
  rw [Html.setAttrStep_str_cls el k1 v1 h1 hv1]
  show (Html.setAttrStep (el.setAttr k1 v1) k2 (JSValue.str v2)).bind _ = _
  rw [Html.setAttrStep_str_cls _ k2 v2 h2 hv2]
  show (Html.setAttrStep ((el.setAttr k1 v1).setAttr k2 v2) k3 (JSValue.str v3)).bind _ = _
  rw [Html.setAttrStep_str_cls _ k3 v3 h3 hv3]
  rfl

/-- The class-generation hidden input on non-empty string name and
value. -/
theorem Html.hiddenInput_str_cls (k v : String) (hk : k ≠ "") (hv : v ≠ "") :
    Html.hiddenInput k (JSValue.str v) []
      = Except.ok (Node.element "input" [("type", "hidden"), ("name", k), ("value", v)]
          [] [] [] []) := by
  show Html.tag "input" Content.nullc
      [("type", JSValue.str "hidden"), ("name", JSValue.str k), ("value", JSValue.str v)]
    = _
  rw [Html.tag_void "input" Content.nullc _ (by decide)]
  rw [Html.setAttributes_three_str (Node.element "input" [] [] [] [] [])
    "type" "hidden" "name" k "value" v (by decide) (by decide) (by decide) hk
    (by decide) hv]
  rfl

/-- Mapping the class hidden-input builder over decoded pairs with
non-empty components. -/
theorem Html.mapM_hiddenInputs (pairs : List (String × String))
    (hne : ∀ kv ∈ pairs, kv.fst ≠ "" ∧ kv.snd ≠ "") :
    pairs.mapM (fun kv => Html.hiddenInput kv.fst (JSValue.str kv.snd) [])
      = Except.ok (pairs.map fun kv =>
          Node.element "input" [("type", "hidden"), ("name", kv.fst), ("value", kv.snd)]
            [] [] [] []) := by
  induction pairs with
  | nil => rfl
  | cons kv rest ih =>
      rw [List.mapM_cons]
      have hkv := hne kv (List.mem_cons_self kv rest)
      rw [Html.hiddenInput_str_cls kv.fst kv.snd hkv.1 hkv.2]
      rw [ih fun x hx => hne x (List.mem_cons_of_mem kv hx)]
      rfl

/-- Reading the tag/type/name/value quadruple off a list of built hidden
inputs. -/
theorem map_quad_hidden (pairs : List (String × String)) :
    (pairs.map fun kv =>
        Node.element "input" [("type", "hidden"), ("name", kv.fst), ("value", kv.snd)]
          [] [] [] []).map
      (fun c => (c.tagOf, c.getAttr "type", c.getAttr "name", c.getAttr "value"))
    = pairs.map fun kv => ("input", some "hidden", some kv.fst, some kv.snd) := by
  induction pairs with
  | nil => rfl
  | cons kv rest ih =>
      rw [List.map_cons, List.map_cons, List.map_cons, ih]
      rfl

/-- **C1 (amended)** With a GET method (case-insensitive) and an action
containing `?`, both `form` implementations truncate the action at the
first `?` and emit one hidden input per `URLSearchParams` pair, in query
order, as the initial (and only) content of the form — but each key and
value is decoded a SECOND time by `decodeURIComponent` after the
`URLSearchParams` decoding (`doubleDecodePairs`), rather than being
URL-decoded once as the claim states, and the second pass can throw
`URIError`.  The class generation is covered for runs that return and
for non-empty truncated action, method, and decoded components (its
`setAttributes` drops empty-string values). -/
theorem form_get_query_double_decoded_hidden_inputs
    (action method : String) (options : JSObj) (pairs : List (String × String))
    (hm : strToLower method = "get")
    (hq : strContainsChar action '?' = true)
    (hnodup : (options.map Prod.fst).Nodup)
    (hdec : doubleDecodePairs (String.mk ((action.data.dropWhile fun c => c != '?').drop 1))
      = Except.ok pairs)
    (htrunc : String.mk (action.data.takeWhile fun c => c != '?') ≠ "")
    (hne : ∀ kv ∈ pairs, kv.fst ≠ "" ∧ kv.snd ≠ "") :
    (∃ n, IndexJs.form action method options = Except.ok n
      ∧ n.tagOf = "form"
      ∧ n.getAttr "action" = some (String.mk (action.data.takeWhile fun c => c != '?'))
      ∧ n.getAttr "method" = some method
      ∧ n.childNodes.map
          (fun c => (c.tagOf, c.getAttr "type", c.getAttr "name", c.getAttr "value"))
        = pairs.map fun kv => ("input", some "hidden", some kv.fst, some kv.snd))
    ∧ (∀ n, Html.form action method options = Except.ok n →
      n.tagOf = "form"
      ∧ n.getAttr "action" = some (String.mk (action.data.takeWhile fun c => c != '?'))
      ∧ n.getAttr "method" = some method
      ∧ n.childNodes.map
          (fun c => (c.tagOf, c.getAttr "type", c.getAttr "name", c.getAttr "value"))
        = pairs.map fun kv => ("input", some "hidden", some kv.fst, some kv.snd)) := by
  have hmne : method ≠ "" := by
    intro e
    subst e
    exact absurd hm (by decide)
  have hcond : (decide (strToLower method = "get") && strContainsChar action '?') = true := by
    simp [hm, hq]
  have hnodup2 : (((setKey (setKey options "action"
      (JSValue.str (String.mk (action.data.takeWhile fun c => c != '?'))))
        "method" (JSValue.str method)).map Prod.fst)).Nodup :=
    nodup_keys_setKey _ "method" _ (nodup_keys_setKey _ "action" _ hnodup)
  have hgetAction : getKey (setKey (setKey options "action"
      (JSValue.str (String.mk (action.data.takeWhile fun c => c != '?'))))
        "method" (JSValue.str method)) "action"
      = some (JSValue.str (String.mk (action.data.takeWhile fun c => c != '?'))) := by
    rw [getKey_setKey_ne _ _ _ _ (by decide)]
    exact getKey_setKey_self _ _ _
  have hgetMethod : getKey (setKey (setKey options "action"
      (JSValue.str (String.mk (action.data.takeWhile fun c => c != '?'))))
        "method" (JSValue.str method)) "method" = some (JSValue.str method) :=
    getKey_setKey_self _ _ _
  constructor
  · -- function generation
    have hform : IndexJs.form action method options
        = Except.ok ((IndexJs.setAttributes (Node.element "form" [] [] [] [] [])
              (setKey (setKey options "action"
                  (JSValue.str (String.mk (action.data.takeWhile fun c => c != '?'))))
                "method" (JSValue.str method))).appendRaw
            (pairs.map fun kv =>
              Node.element "input" [("type", "hidden"), ("name", kv.fst), ("value", kv.snd)]
                [] [] [] [])) := by
      unfold IndexJs.form
      rw [if_pos hcond]
      simp only [hdec, Except.map]
      rw [IndexJs.tag_nonvoid "form" _ _ (by decide)]
      rfl
    have helem : (IndexJs.setAttributes (Node.element "form" [] [] [] [] [])
        (setKey (setKey options "action"
            (JSValue.str (String.mk (action.data.takeWhile fun c => c != '?'))))
          "method" (JSValue.str method))).isElement = true := by
      rw [(IndexJs.setAttributes_tag_children _ _).2.2]
      rfl
    refine ⟨_, hform, ?_, ?_, ?_, ?_⟩
    · rw [Node.tagOf_appendRaw, (IndexJs.setAttributes_tag_children _ _).1]
      rfl
    · rw [Node.getAttr_appendRaw]
      exact IndexJs.setAttributes_getAttr_unique_str _ (Node.element "form" [] [] [] [] [])
        "action" _ rfl hnodup2 hgetAction (by decide)
    · rw [Node.getAttr_appendRaw]
      exact IndexJs.setAttributes_getAttr_unique_str _ (Node.element "form" [] [] [] [] [])
        "method" _ rfl hnodup2 hgetMethod (by decide)
    · rw [Node.childNodes_appendRaw _ _ helem, (IndexJs.setAttributes_tag_children _ _).2.1]
      show (([] : List Node) ++ _).map _ = _
      rw [List.nil_append]
      exact map_quad_hidden pairs
  · -- class generation
    intro n h
    have hform2 : Html.form action method options
        = (pairs.mapM fun kv => Html.hiddenInput kv.fst (JSValue.str kv.snd) []).bind
            (fun hidden => Html.tag "form" (Content.node (Node.fragment hidden))
              (setKey (setKey options "action"
                  (JSValue.str (String.mk (action.data.takeWhile fun c => c != '?'))))
                "method" (JSValue.str method))) := by
      unfold Html.form
      rw [if_pos hcond]
      simp only [hdec]
      rfl
    rw [Html.mapM_hiddenInputs pairs hne] at hform2
    simp only [Except.bind] at hform2
    rw [hform2] at h
    obtain ⟨el1, hset, hrender⟩ := Html.tag_ok_dissect "form" _ _ n (by decide) h
    have hn : n = el1.appendRaw (pairs.map fun kv =>
        Node.element "input" [("type", "hidden"), ("name", kv.fst), ("value", kv.snd)]
          [] [] [] []) := by
      simpa [Html.renderContent, Node.appendChild] using hrender.symm
    subst hn
    have hshape := Html.setAttributes_tag_children_cls _ _ _ hset
    have helem1 : el1.isElement = true := by
      rw [hshape.2.2]
      rfl
    refine ⟨?_, ?_, ?_, ?_⟩
    · rw [Node.tagOf_appendRaw, hshape.1]
      rfl
    · rw [Node.getAttr_appendRaw]
      exact Html.setAttributes_getAttr_unique_str_cls _ (Node.element "form" [] [] [] [] []) el1
        "action" _ rfl hnodup2 hgetAction (by decide) htrunc hset
    · rw [Node.getAttr_appendRaw]
      exact Html.setAttributes_getAttr_unique_str_cls _ (Node.element "form" [] [] [] [] []) el1
        "method" _ rfl hnodup2 hgetMethod (by decide) hmne hset
    · rw [Node.childNodes_appendRaw _ _ helem1, hshape.2.1]
      show (([] : List Node) ++ _).map _ = _
      rw [List.nil_append]
      exact map_quad_hidden pairs

/-- **C1 (counterexample)** The claim says the hidden inputs carry the
URL-decoded query pairs.  For `form('/s?q=a%2525', 'get')` one round of
URL decoding gives `a%25`, but both generations decode a second time
with `decodeURIComponent` and emit the hidden value `a%`. -/
theorem form_get_query_double_decode_counterexample :
    IndexJs.form "/s?q=a%2525" "get" []
      = Except.ok (Node.element "form" [("action", "/s"), ("method", "get")] [] [] []
          [Node.element "input" [("type", "hidden"), ("name", "q"), ("value", "a%")]
            [] [] [] []])
    ∧ formUrlDecode "a%2525".data = "a%25".data
    ∧ ("a%" : String) ≠ "a%25"
    ∧ Html.form "/s?q=a%2525" "get" []
      = Except.ok (Node.element "form" [("action", "/s"), ("method", "get")] [] [] []
          [Node.element "input" [("type", "hidden"), ("name", "q"), ("value", "a%")]
            [] [] [] []]) :=
  ⟨rfl, rfl, by decide, rfl⟩

/-- Witness for the C1 amended theorem at
`form('/search?q=test&page=1', 'get', {})`. -/
theorem form_get_query_double_decoded_hidden_inputs_witness :
    (∃ n, IndexJs.form "/search?q=test&page=1" "get" [] = Except.ok n
      ∧ n.tagOf = "form"
      ∧ n.getAttr "action"
          = some (String.mk ("/search?q=test&page=1".data.takeWhile fun c => c != '?'))
      ∧ n.getAttr "method" = some "get"
      ∧ n.childNodes.map
          (fun c => (c.tagOf, c.getAttr "type", c.getAttr "name", c.getAttr "value"))
        = [("q", "test"), ("page", "1")].map
            fun kv => ("input", some "hidden", some kv.fst, some kv.snd))
    ∧ (∀ n, Html.form "/search?q=test&page=1" "get" [] = Except.ok n →
      n.tagOf = "form"
      ∧ n.getAttr "action"
          = some (String.mk ("/search?q=test&page=1".data.takeWhile fun c => c != '?'))
      ∧ n.getAttr "method" = some "get"
      ∧ n.childNodes.map
          (fun c => (c.tagOf, c.getAttr "type", c.getAttr "name", c.getAttr "value"))
        = [("q", "test"), ("page", "1")].map
            fun kv => ("input", some "hidden", some kv.fst, some kv.snd)) :=
  form_get_query_double_decoded_hidden_inputs "/search?q=test&page=1" "get" []
    [("q", "test"), ("page", "1")] rfl rfl (by decide) rfl (by decide) (by decide)
